import Mathlib

/-!
# SENDME flow control: `src/core/or/sendme.c`

A shallow embedding of the two window regulators of `sendme.c`,

* `sendme_connection_edge_consider_sending` (stream level), and
* `sendme_circuit_consider_sending` (circuit level, optionally per hop),

together with the properties of their replenishment loops.

Modelling conventions.

* `deliver_window` is a C `int`; it is embedded as `Int`.  The only arithmetic
  the file performs on it is `deliver_window += INCREMENT`, executed under the
  loop guard `deliver_window <= START - INCREMENT`, so the sum never exceeds
  `START` and no wrap-around can take place for a positive increment.
* The constants of `or.h` are not part of the translated file and are taken as
  a parameter (`Consts`); `torConsts` holds the values the spec quotes.
* The collaborators (`connection_outbuf_too_full`, `circuit_get_by_edge_conn`,
  `connection_edge_send_command`, `relay_send_command_from_edge`) are external:
  their answers are supplied by an environment.  The send primitive is called
  repeatedly, so its answers form a sequence indexed by the number of the call.
* Every observable action (a log line, a call of the send primitive) is
  appended to a trace, oldest event first.
* The `while` loops are embedded with a fuel argument: `none` means that the
  fuel ran out before the loop left, `some` is a normal return.
-/

namespace Sendme

/-! ## Data model -/

/-- The flow-control constants of `or.h` used by `sendme.c`. -/
structure Consts where
  STREAMWINDOW_START : Int
  STREAMWINDOW_INCREMENT : Int
  CIRCWINDOW_START : Int
  CIRCWINDOW_INCREMENT : Int
  deriving Repr, DecidableEq

/-- The values quoted by the specification:
stream `(500, 50)`, circuit `(1000, 100)`. -/
def torConsts : Consts :=
  { STREAMWINDOW_START := 500, STREAMWINDOW_INCREMENT := 50,
    CIRCWINDOW_START := 1000, CIRCWINDOW_INCREMENT := 100 }

/-- Log domains named in `sendme.c`. -/
inductive LogDomain where
  | LD_APP
  | LD_EXIT
  | LD_BUG
  | LD_CIRC
  deriving Repr, DecidableEq

/-- Severity of a log line: `log_debug`, `log_info`, `log_warn`. -/
inductive Severity where
  | debug
  | info
  | warn
  deriving Repr, DecidableEq

/-- Relay commands; `sendme.c` only ever names `RELAY_COMMAND_SENDME`. -/
inductive RelayCommand where
  | RELAY_COMMAND_SENDME
  | other (code : Nat)
  deriving Repr, DecidableEq

/-- Connection types; `sendme.c` only distinguishes `CONN_TYPE_AP`. -/
inductive ConnType where
  | CONN_TYPE_AP
  | CONN_TYPE_EXIT
  deriving Repr, DecidableEq

/-- The fields of `connection_t` read by `sendme.c`. -/
structure connection_t where
  type : ConnType
  outbuf_flushlen : Nat
  deriving Repr, DecidableEq

/-- The fields of `edge_connection_t` used by `sendme.c`. -/
structure edge_connection_t where
  base_ : connection_t
  deliver_window : Int
  deriving Repr, DecidableEq

/-- The field of `circuit_t` used by `sendme.c`: the aggregate window. -/
structure circuit_t where
  deliver_window : Int
  deriving Repr, DecidableEq

/-- The field of `crypt_path_t` used by `sendme.c`: the window of one hop. -/
structure crypt_path_t where
  deliver_window : Int
  deriving Repr, DecidableEq

/-- The memory `sendme_circuit_consider_sending` works on: the circuit and the
hop objects a `layer_hint` pointer can designate, indexed by their address. -/
structure CircMem where
  circ : circuit_t
  cpath : Nat → crypt_path_t

/-- An observable action of a regulator.  A send event records the arguments
handed to the send primitive and the value it returned. -/
inductive Event where
  | log (sev : Severity) (domain : LogDomain)
  | connection_edge_send_command (cmd : RelayCommand) (payload : Option (List Nat))
      (payload_len : Nat) (ret : Int)
  | relay_send_command_from_edge (stream_id : Nat) (cmd : RelayCommand)
      (payload : Option (List Nat)) (payload_len : Nat) (layer_hint : Option Nat)
      (ret : Int)
  deriving Repr, DecidableEq

/-- The collaborators of the stream regulator.  `circuit_get_by_edge_conn` is
`none` for `NULL`; `connection_edge_send_command i` is the value returned by the
call number `i` (counted from zero) of the send primitive. -/
structure EdgeEnv where
  connection_outbuf_too_full : Bool
  circuit_get_by_edge_conn : Option Nat
  connection_edge_send_command : Nat → Int

/-! ## Observations on a trace -/

/-- The return values of the send primitive, in the order of the calls. -/
def sendResults : List Event → List Int
  | [] => []
  | Event.connection_edge_send_command _ _ _ r :: t => r :: sendResults t
  | Event.relay_send_command_from_edge _ _ _ _ _ r :: t => r :: sendResults t
  | Event.log _ _ :: t => sendResults t

/-- Number of calls of the send primitive. -/
def attempts (tr : List Event) : Nat := (sendResults tr).length

/-- Number of acknowledgments emitted: calls of the send primitive that did not
report failure (a negative return value). -/
def acks (tr : List Event) : Nat := ((sendResults tr).filter (fun r => decide (0 ≤ r))).length

/-- Number of failed calls of the send primitive. -/
def failures (tr : List Event) : Nat := ((sendResults tr).filter (fun r => decide (r < 0))).length

/-- Number of log lines of a given severity. -/
def logCount (s : Severity) : List Event → Nat
  | [] => 0
  | Event.log s' _ :: t => (if s' = s then 1 else 0) + logCount s t
  | _ :: t => logCount s t

/-! ## The stream regulator -/

/-- The `while` loop of `sendme_connection_edge_consider_sending` (lines 44-55).
`i` is the number of calls of the send primitive made so far. -/
def edge_loop (K : Consts) (env : EdgeEnv) (log_domain : LogDomain) :
    Nat → Nat → edge_connection_t → List Event → Option (edge_connection_t × List Event)
  | 0, _, _, _ => none
  | fuel + 1, i, conn, tr =>
    if conn.deliver_window ≤ K.STREAMWINDOW_START - K.STREAMWINDOW_INCREMENT then
      let tr1 := tr ++ [Event.log Severity.debug log_domain]
      let conn1 := { conn with
        deliver_window := conn.deliver_window + K.STREAMWINDOW_INCREMENT }
      let r := env.connection_edge_send_command i
      let tr2 := tr1 ++
        [Event.connection_edge_send_command RelayCommand.RELAY_COMMAND_SENDME none 0 r]
      if r < 0 then
        some (conn1, tr2 ++ [Event.log Severity.warn LogDomain.LD_BUG])
      else
        edge_loop K env log_domain fuel (i + 1) conn1 tr2
    else
      some (conn, tr)

/-- The embedding of `sendme_connection_edge_consider_sending(conn)`: the
connection on return and the trace of the call.  `tor_assert(conn)` holds by
construction, `conn` being a value; both `goto end` exits and the fall-through
after the loop are a plain return. -/
def sendme_connection_edge_consider_sending (K : Consts) (env : EdgeEnv)
    (conn : edge_connection_t) (fuel : Nat) : Option (edge_connection_t × List Event) :=
  let log_domain :=
    if conn.base_.type = ConnType.CONN_TYPE_AP then LogDomain.LD_APP else LogDomain.LD_EXIT
  if env.connection_outbuf_too_full then
    some (conn, [])
  else if env.circuit_get_by_edge_conn = none then
    some (conn, [Event.log Severity.info log_domain])
  else
    edge_loop K env log_domain fuel 0 conn []

/-! ## The circuit regulator -/

/-- The window the circuit regulator looks at:
`layer_hint ? layer_hint->deliver_window : circ->deliver_window`. -/
def subjectWindow (m : CircMem) (layer_hint : Option Nat) : Int :=
  match layer_hint with
  | some l => (m.cpath l).deliver_window
  | none => m.circ.deliver_window

/-- The assignment of lines 73-76: add `inc` to the window of the designated
hop, or to the aggregate window when no hop is designated. -/
def bumpWindow (m : CircMem) (layer_hint : Option Nat) (inc : Int) : CircMem :=
  match layer_hint with
  | some l =>
    { m with
      cpath := (Function.update m.cpath l
        { m.cpath l with deliver_window := (m.cpath l).deliver_window + inc }) }
  | none =>
    { m with circ := { m.circ with deliver_window := m.circ.deliver_window + inc } }

/-- The `while` loop of `sendme_circuit_consider_sending` (lines 70-83).
`send i` is the value returned by call number `i` of
`relay_send_command_from_edge`. -/
def circ_loop (K : Consts) (send : Nat → Int) (layer_hint : Option Nat) :
    Nat → Nat → CircMem → List Event → Option (CircMem × List Event)
  | 0, _, _, _ => none
  | fuel + 1, i, m, tr =>
    if subjectWindow m layer_hint ≤ K.CIRCWINDOW_START - K.CIRCWINDOW_INCREMENT then
      let tr1 := tr ++ [Event.log Severity.debug LogDomain.LD_CIRC]
      let m1 := bumpWindow m layer_hint K.CIRCWINDOW_INCREMENT
      let r := send i
      let tr2 := tr1 ++
        [Event.relay_send_command_from_edge 0 RelayCommand.RELAY_COMMAND_SENDME none 0
          layer_hint r]
      if r < 0 then
        some (m1, tr2 ++ [Event.log Severity.warn LogDomain.LD_CIRC])
      else
        circ_loop K send layer_hint fuel (i + 1) m1 tr2
    else
      some (m, tr)

/-- The embedding of `sendme_circuit_consider_sending(circ, layer_hint)`: the
memory on return and the trace of the call. -/
def sendme_circuit_consider_sending (K : Consts) (send : Nat → Int) (m : CircMem)
    (layer_hint : Option Nat) (fuel : Nat) : Option (CircMem × List Event) :=
  circ_loop K send layer_hint fuel 0 m []

/-! ## Concrete inputs -/

/-- An uncongested endpoint environment with a live circuit; call `i` of the
send primitive returns `send i`. -/
def liveEnv (send : Nat → Int) : EdgeEnv :=
  { connection_outbuf_too_full := false, circuit_get_by_edge_conn := some 1,
    connection_edge_send_command := send }

/-- An application-side endpoint whose deliver window is `w`. -/
def connAt (w : Int) : edge_connection_t :=
  { base_ := { type := ConnType.CONN_TYPE_AP, outbuf_flushlen := 0 }, deliver_window := w }

/-- A circuit whose aggregate window is `agg` and whose hop at address `l` has
window `hops l`. -/
def memAt (agg : Int) (hops : Nat → Int) : CircMem :=
  { circ := { deliver_window := agg }, cpath := fun l => { deliver_window := hops l } }

/-- The aggregate window of the circuit differs between two memories. -/
def aggregateMutated (m m' : CircMem) : Prop :=
  m'.circ.deliver_window ≠ m.circ.deliver_window

/-- The window of some hop differs between two memories. -/
def layerMutated (m m' : CircMem) : Prop :=
  ∃ l : Nat, (m'.cpath l).deliver_window ≠ (m.cpath l).deliver_window

/-- Send results in which only call number `n` fails. -/
def failAt (n : Nat) : Nat → Int := fun i => if i = n then -1 else 0

/-! ## The common shape of the two loops

Both loops repeat "compare, add the increment, send, stop on failure".
`replenish` is that skeleton on a bare window; the two embedded loops are shown
to follow it (`edge_loop_eq`, `circ_loop_eq`), so that the arithmetic of the
loop is analysed once. -/

/-- The skeleton of a replenishment loop: the final window and the return
values of the send attempts, in order. -/
def replenish (thr inc : Int) (send : Nat → Int) : Nat → Nat → Int → Option (Int × List Int)
  | 0, _, _ => none
  | fuel + 1, i, w =>
    if w ≤ thr then
      if send i < 0 then some (w + inc, [send i])
      else (replenish thr inc send fuel (i + 1) (w + inc)).map
        (fun p => (p.1, send i :: p.2))
    else some (w, [])

/-- The events the stream loop produces for a list of send results. -/
def edgeEvents (log_domain : LogDomain) : List Int → List Event
  | [] => []
  | r :: rs =>
    [Event.log Severity.debug log_domain,
      Event.connection_edge_send_command RelayCommand.RELAY_COMMAND_SENDME none 0 r] ++
    ((if r < 0 then [Event.log Severity.warn LogDomain.LD_BUG] else []) ++
      edgeEvents log_domain rs)

/-- The events the circuit loop produces for a list of send results. -/
def circEvents (layer_hint : Option Nat) : List Int → List Event
  | [] => []
  | r :: rs =>
    [Event.log Severity.debug LogDomain.LD_CIRC,
      Event.relay_send_command_from_edge 0 RelayCommand.RELAY_COMMAND_SENDME none 0
        layer_hint r] ++
    ((if r < 0 then [Event.log Severity.warn LogDomain.LD_CIRC] else []) ++
      circEvents layer_hint rs)

/-- The memory in which the subject window has the value `w`. -/
def setSubject (m : CircMem) (layer_hint : Option Nat) (w : Int) : CircMem :=
  match layer_hint with
  | some l => { m with cpath := (Function.update m.cpath l { m.cpath l with deliver_window := w }) }
  | none => { m with circ := { m.circ with deliver_window := w } }

/-- Number of replenishments an all-success call performs from window `w`. -/
def needed (thr inc w : Int) : Nat := ((thr - w) / inc + 1).toNat

/-! ## The assignments to the window

The trace records what a regulator hands to its collaborators; the values the
window passes through are recorded by running the same loops once more with a
history: every execution of `deliver_window += INCREMENT` contributes the pair
(value read, value written). -/

/-- The assignments `conn->deliver_window += STREAMWINDOW_INCREMENT` (line 48)
executed by the loop of lines 44-55, oldest first. -/
def edge_loop_writes (K : Consts) (env : EdgeEnv) :
    Nat → Nat → edge_connection_t → Option (List (Int × Int))
  | 0, _, _ => none
  | fuel + 1, i, conn =>
    if conn.deliver_window ≤ K.STREAMWINDOW_START - K.STREAMWINDOW_INCREMENT then
      let conn1 := { conn with
        deliver_window := conn.deliver_window + K.STREAMWINDOW_INCREMENT }
      let wr := (conn.deliver_window, conn1.deliver_window)
      if env.connection_edge_send_command i < 0 then
        some [wr]
      else
        (edge_loop_writes K env fuel (i + 1) conn1).map (fun l => wr :: l)
    else
      some []

/-- The assignments to `conn->deliver_window` made by one call of
`sendme_connection_edge_consider_sending`. -/
def sendme_connection_edge_writes (K : Consts) (env : EdgeEnv)
    (conn : edge_connection_t) (fuel : Nat) : Option (List (Int × Int)) :=
  if env.connection_outbuf_too_full then
    some []
  else if env.circuit_get_by_edge_conn = none then
    some []
  else
    edge_loop_writes K env fuel 0 conn

/-- The assignments to the subject window (lines 73-76) executed by the loop of
lines 70-83, oldest first. -/
def circ_loop_writes (K : Consts) (send : Nat → Int) (layer_hint : Option Nat) :
    Nat → Nat → CircMem → Option (List (Int × Int))
  | 0, _, _ => none
  | fuel + 1, i, m =>
    if subjectWindow m layer_hint ≤ K.CIRCWINDOW_START - K.CIRCWINDOW_INCREMENT then
      let m1 := bumpWindow m layer_hint K.CIRCWINDOW_INCREMENT
      let wr := (subjectWindow m layer_hint, subjectWindow m1 layer_hint)
      if send i < 0 then
        some [wr]
      else
        (circ_loop_writes K send layer_hint fuel (i + 1) m1).map (fun l => wr :: l)
    else
      some []

/-- The assignments to the subject window made by one call of
`sendme_circuit_consider_sending`. -/
def sendme_circuit_writes (K : Consts) (send : Nat → Int) (m : CircMem)
    (layer_hint : Option Nat) (fuel : Nat) : Option (List (Int × Int)) :=
  circ_loop_writes K send layer_hint fuel 0 m

/-- The history of `k` successive increments of a window starting at `w`. -/
def writesOf (inc : Int) : Int → Nat → List (Int × Int)
  | _, 0 => []
  | w, k + 1 => (w, w + inc) :: writesOf inc (w + inc) k

/-! ## Lemmas on the loop skeleton -/

theorem replenish_all_ok (thr inc : Int) (send : Nat → Int) :
    ∀ (k fuel i : Nat) (w : Int), (∀ j : Nat, j < k → w + j * inc ≤ thr) →
      thr < w + k * inc → (∀ j : Nat, j < k → 0 ≤ send (i + j)) → k < fuel →
      replenish thr inc send fuel i w = some (w + k * inc, (List.range' i k).map send) := by
  intro k
  induction k with
  | zero =>
    intro fuel i w _ hgt _ hf
    obtain ⟨f, rfl⟩ : ∃ f, fuel = f + 1 := ⟨fuel - 1, by omega⟩
    have hw : ¬ w ≤ thr := by simpa using hgt
    simp [replenish, hw]
  | succ k ih =>
    intro fuel i w hle hgt hs hf
    obtain ⟨f, rfl⟩ : ∃ f, fuel = f + 1 := ⟨fuel - 1, by omega⟩
    have hw : w ≤ thr := by simpa using hle 0 (by omega)
    have h0 : ¬ send i < 0 := by simpa using hs 0 (by omega)
    have hrec := ih f (i + 1) (w + inc)
      (fun j hj => by
        have := hle (j + 1) (by omega)
        push_cast at this
        linarith)
      (by push_cast at hgt; linarith)
      (fun j hj => by
        have := hs (j + 1) (by omega)
        rwa [show i + 1 + j = i + (j + 1) by omega])
      (by omega)
    simp only [replenish, hw, h0, if_true, if_false, hrec, Option.map_some', List.range'_succ,
      List.map_cons]
    congr 2
    push_cast
    ring

theorem replenish_fail (thr inc : Int) (send : Nat → Int) :
    ∀ (k fuel i : Nat) (w : Int), (∀ j : Nat, j ≤ k → w + j * inc ≤ thr) →
      (∀ j : Nat, j < k → 0 ≤ send (i + j)) → send (i + k) < 0 → k < fuel →
      replenish thr inc send fuel i w =
        some (w + (k + 1 : Nat) * inc, (List.range' i (k + 1)).map send) := by
  intro k
  induction k with
  | zero =>
    intro fuel i w hle _ hfail hf
    obtain ⟨f, rfl⟩ : ∃ f, fuel = f + 1 := ⟨fuel - 1, by omega⟩
    have hw : w ≤ thr := by simpa using hle 0 (by omega)
    have h0 : send i < 0 := by simpa using hfail
    simp [replenish, hw, h0]
  | succ k ih =>
    intro fuel i w hle hs hfail hf
    obtain ⟨f, rfl⟩ : ∃ f, fuel = f + 1 := ⟨fuel - 1, by omega⟩
    have hw : w ≤ thr := by simpa using hle 0 (by omega)
    have h0 : ¬ send i < 0 := by simpa using hs 0 (by omega)
    have hrec := ih f (i + 1) (w + inc)
      (fun j hj => by
        have := hle (j + 1) (by omega)
        push_cast at this
        linarith)
      (fun j hj => by
        have := hs (j + 1) (by omega)
        rwa [show i + 1 + j = i + (j + 1) by omega])
      (by rwa [show i + 1 + k = i + (k + 1) by omega])
      (by omega)
    rw [replenish, if_pos hw, if_neg h0, hrec, Option.map_some']
    simp only [List.range'_succ, List.map_cons]
    congr 2
    push_cast
    ring

/-- The loop leaves as soon as some number of increments lifts the window above
the threshold: fuel beyond that number always suffices. -/
theorem replenish_isSome (thr inc : Int) (send : Nat → Int) :
    ∀ (fuel n i : Nat) (w : Int), thr < w + n * inc → n < fuel →
      (replenish thr inc send fuel i w).isSome = true := by
  intro fuel
  induction fuel with
  | zero => intro n i w _ h; omega
  | succ f ih =>
    intro n i w hgt hf
    unfold replenish
    by_cases hw : w ≤ thr
    · rw [if_pos hw]
      by_cases h0 : send i < 0
      · simp [h0]
      · rw [if_neg h0]
        obtain ⟨n', rfl⟩ : ∃ n', n = n' + 1 := by
          cases n with
          | zero => simp at hgt; omega
          | succ n' => exact ⟨n', rfl⟩
        have := ih n' (i + 1) (w + inc) (by push_cast at hgt; linarith) (by omega)
        simpa [Option.isSome_map'] using this
    · simp [hw]

/-- What a returning run of the skeleton looks like. -/
theorem replenish_sound (thr inc : Int) (send : Nat → Int) :
    ∀ (fuel i : Nat) (w w' : Int) (rs : List Int),
      replenish thr inc send fuel i w = some (w', rs) →
      ∃ k : Nat, rs = (List.range' i k).map send ∧ w' = w + k * inc ∧
        (∀ j : Nat, j < k → w + j * inc ≤ thr) ∧
        (∀ j : Nat, j + 1 < k → 0 ≤ send (i + j)) ∧
        ((∃ k', k = k' + 1 ∧ send (i + k') < 0) ∨
          ((∀ j : Nat, j < k → 0 ≤ send (i + j)) ∧ thr < w')) := by
  intro fuel
  induction fuel with
  | zero => intro i w w' rs h; simp [replenish] at h
  | succ f ih =>
    intro i w w' rs h
    unfold replenish at h
    by_cases hw : w ≤ thr
    · rw [if_pos hw] at h
      by_cases h0 : send i < 0
      · rw [if_pos h0] at h
        simp only [Option.some.injEq, Prod.mk.injEq] at h
        obtain ⟨rfl, rfl⟩ := h
        refine ⟨1, by simp, by simp, ?_, ?_, Or.inl ⟨0, rfl, by simpa using h0⟩⟩
        · intro j hj
          obtain rfl : j = 0 := by omega
          simpa using hw
        · intro j hj; omega
      · rw [if_neg h0] at h
        cases hr : replenish thr inc send f (i + 1) (w + inc) with
        | none => simp [hr] at h
        | some p =>
          obtain ⟨w1, rs1⟩ := p
          simp only [hr, Option.map_some', Option.some.injEq, Prod.mk.injEq] at h
          obtain ⟨rfl, rfl⟩ := h
          obtain ⟨k, hrs, hw1, hle, hok, hend⟩ := ih (i + 1) (w + inc) w1 rs1 hr
          refine ⟨k + 1, ?_, ?_, ?_, ?_, ?_⟩
          · simp [List.range'_succ, hrs]
          · rw [hw1]; push_cast; ring
          · intro j hj
            cases j with
            | zero => simpa using hw
            | succ j =>
              have := hle j (by omega)
              push_cast
              linarith
          · intro j hj
            cases j with
            | zero => simpa using h0
            | succ j =>
              have := hok j (by omega)
              rwa [show i + (j + 1) = i + 1 + j by omega]
          · rcases hend with ⟨k', rfl, hk'⟩ | ⟨hall, hgt⟩
            · exact Or.inl ⟨k' + 1, rfl, by rwa [show i + (k' + 1) = i + 1 + k' by omega]⟩
            · refine Or.inr ⟨?_, hgt⟩
              intro j hj
              cases j with
              | zero => simpa using h0
              | succ j =>
                have := hall j (by omega)
                rwa [show i + (j + 1) = i + 1 + j by omega]
    · rw [if_neg hw] at h
      simp only [Option.some.injEq, Prod.mk.injEq] at h
      obtain ⟨rfl, rfl⟩ := h
      exact ⟨0, by simp, by simp, by intro j hj; omega, by intro j hj; omega,
        Or.inr ⟨by intro j hj; omega, by simpa using hw⟩⟩

/-! ## The embedded loops follow the skeleton -/

theorem edge_loop_eq (K : Consts) (env : EdgeEnv) (d : LogDomain) :
    ∀ (fuel i : Nat) (conn : edge_connection_t) (tr : List Event),
      edge_loop K env d fuel i conn tr =
        (replenish (K.STREAMWINDOW_START - K.STREAMWINDOW_INCREMENT) K.STREAMWINDOW_INCREMENT
          env.connection_edge_send_command fuel i conn.deliver_window).map
          (fun p => ({ conn with deliver_window := p.1 }, tr ++ edgeEvents d p.2)) := by
  intro fuel
  induction fuel with
  | zero => intro i conn tr; simp [edge_loop, replenish]
  | succ f ih =>
    intro i conn tr
    unfold edge_loop replenish
    by_cases hw : conn.deliver_window ≤ K.STREAMWINDOW_START - K.STREAMWINDOW_INCREMENT
    · by_cases h0 : env.connection_edge_send_command i < 0
      · simp [hw, h0, edgeEvents]
      · simp only [hw, h0, if_true, if_false, ih, Option.map_map]
        congr 1
        funext p
        simp [edgeEvents, h0]
    · simp [hw, edgeEvents]

theorem subjectWindow_bump (m : CircMem) (h : Option Nat) (inc : Int) :
    subjectWindow (bumpWindow m h inc) h = subjectWindow m h + inc := by
  cases h <;> simp [subjectWindow, bumpWindow]

theorem bumpWindow_eq (m : CircMem) (h : Option Nat) (inc : Int) :
    bumpWindow m h inc = setSubject m h (subjectWindow m h + inc) := by
  cases h <;> simp [subjectWindow, bumpWindow, setSubject]

theorem setSubject_setSubject (m : CircMem) (h : Option Nat) (a b : Int) :
    setSubject (setSubject m h a) h b = setSubject m h b := by
  cases h <;> simp [setSubject]

theorem setSubject_self (m : CircMem) (h : Option Nat) :
    setSubject m h (subjectWindow m h) = m := by
  cases h <;> simp [setSubject, subjectWindow]

theorem circ_loop_eq (K : Consts) (send : Nat → Int) (h : Option Nat) :
    ∀ (fuel i : Nat) (m : CircMem) (tr : List Event),
      circ_loop K send h fuel i m tr =
        (replenish (K.CIRCWINDOW_START - K.CIRCWINDOW_INCREMENT) K.CIRCWINDOW_INCREMENT
          send fuel i (subjectWindow m h)).map
          (fun p => (setSubject m h p.1, tr ++ circEvents h p.2)) := by
  intro fuel
  induction fuel with
  | zero => intro i m tr; simp [circ_loop, replenish]
  | succ f ih =>
    intro i m tr
    unfold circ_loop replenish
    by_cases hw : subjectWindow m h ≤ K.CIRCWINDOW_START - K.CIRCWINDOW_INCREMENT
    · by_cases h0 : send i < 0
      · simp [hw, h0, circEvents, bumpWindow_eq]
      · simp only [hw, h0, if_true, if_false, ih, Option.map_map, subjectWindow_bump]
        congr 1
        funext p
        simp [circEvents, h0, bumpWindow_eq, setSubject_setSubject]
    · simp [hw, circEvents, setSubject_self]

/-! ## Observations on the events of a loop -/

theorem sendResults_append (a b : List Event) :
    sendResults (a ++ b) = sendResults a ++ sendResults b := by
  induction a with
  | nil => rfl
  | cons e t ih => cases e <;> simp [sendResults, ih]

theorem logCount_append (s : Severity) (a b : List Event) :
    logCount s (a ++ b) = logCount s a + logCount s b := by
  induction a with
  | nil => simp [logCount]
  | cons e t ih => cases e <;> simp [logCount, ih, Nat.add_assoc]

theorem sendResults_edgeEvents (d : LogDomain) (rs : List Int) :
    sendResults (edgeEvents d rs) = rs := by
  induction rs with
  | nil => rfl
  | cons r t ih => by_cases h : r < 0 <;> simp [edgeEvents, sendResults, h, ih]

theorem sendResults_circEvents (h : Option Nat) (rs : List Int) :
    sendResults (circEvents h rs) = rs := by
  induction rs with
  | nil => rfl
  | cons r t ih => by_cases h0 : r < 0 <;> simp [circEvents, sendResults, h0, ih]

theorem logCount_warn_edgeEvents (d : LogDomain) (rs : List Int) :
    logCount Severity.warn (edgeEvents d rs) = (rs.filter (fun r => decide (r < 0))).length := by
  induction rs with
  | nil => rfl
  | cons r t ih =>
    by_cases h : r < 0
    · simp [edgeEvents, logCount, h, ih, List.filter_cons]; omega
    · simp [edgeEvents, logCount, h, ih, List.filter_cons]

theorem logCount_warn_circEvents (h : Option Nat) (rs : List Int) :
    logCount Severity.warn (circEvents h rs) = (rs.filter (fun r => decide (r < 0))).length := by
  induction rs with
  | nil => rfl
  | cons r t ih =>
    by_cases h0 : r < 0
    · simp [circEvents, logCount, h0, ih, List.filter_cons]; omega
    · simp [circEvents, logCount, h0, ih, List.filter_cons]

theorem logCount_info_edgeEvents (d : LogDomain) (rs : List Int) :
    logCount Severity.info (edgeEvents d rs) = 0 := by
  induction rs with
  | nil => rfl
  | cons r t ih => by_cases h : r < 0 <;> simp [edgeEvents, logCount, h, ih]

theorem logCount_info_circEvents (h : Option Nat) (rs : List Int) :
    logCount Severity.info (circEvents h rs) = 0 := by
  induction rs with
  | nil => rfl
  | cons r t ih => by_cases h0 : r < 0 <;> simp [circEvents, logCount, h0, ih]

/-! ## The number of replenishments -/

theorem needed_gt (thr inc w : Int) (hinc : 0 < inc) : thr < w + needed thr inc w * inc := by
  unfold needed
  have h1 : thr - w < ((thr - w) / inc + 1) * inc := Int.lt_ediv_add_one_mul_self _ hinc
  have h2 : (thr - w) / inc + 1 ≤ (((thr - w) / inc + 1).toNat : Int) := Int.self_le_toNat _
  have h3 : ((thr - w) / inc + 1) * inc ≤ (((thr - w) / inc + 1).toNat : Int) * inc :=
    Int.mul_le_mul_of_nonneg_right h2 (le_of_lt hinc)
  linarith

theorem needed_le (thr inc w : Int) (hinc : 0 < inc) (j : Nat) (hj : j < needed thr inc w) :
    w + j * inc ≤ thr := by
  unfold needed at hj
  have hj' : (j : Int) < (thr - w) / inc + 1 := by
    have := (Int.lt_toNat).1 hj
    exact this
  have h1 : (j : Int) ≤ (thr - w) / inc := by omega
  have h2 : (j : Int) * inc ≤ (thr - w) / inc * inc := Int.mul_le_mul_of_nonneg_right h1 (le_of_lt hinc)
  have h3 : (thr - w) / inc * inc ≤ thr - w := Int.ediv_mul_le _ (ne_of_gt hinc)
  linarith

/-- `needed` is the least number of increments that lifts `w` above `thr`. -/
theorem needed_least (thr inc w : Int) (hinc : 0 < inc) (j : Nat) (hj : thr < w + j * inc) :
    needed thr inc w ≤ j := by
  by_contra hlt
  have := needed_le thr inc w hinc j (by omega)
  omega

theorem needed_pos (thr inc w : Int) (hinc : 0 < inc) (hw : w ≤ thr) : 0 < needed thr inc w := by
  by_contra h0
  have h : needed thr inc w = 0 := by omega
  have := needed_gt thr inc w hinc
  rw [h] at this
  simp at this
  omega

/-! ## Shape of the send results of a run -/

theorem filter_ok_of_all (rs : List Int) (h : ∀ r ∈ rs, 0 ≤ r) :
    (rs.filter (fun r => decide (0 ≤ r))).length = rs.length ∧
      (rs.filter (fun r => decide (r < 0))).length = 0 := by
  induction rs with
  | nil => simp
  | cons r t ih =>
    have hr : 0 ≤ r := h r (by simp)
    have hr' : ¬ r < 0 := by omega
    have := ih (fun x hx => h x (by simp [hx]))
    simp [List.filter_cons, hr, hr', this.1]
    simpa using this.2

theorem filter_fail_last (pre : List Int) (r : Int) (h : ∀ x ∈ pre, 0 ≤ x) (hr : r < 0) :
    ((pre ++ [r]).filter (fun r => decide (0 ≤ r))).length = pre.length ∧
      ((pre ++ [r]).filter (fun r => decide (r < 0))).length = 1 := by
  have := filter_ok_of_all pre h
  have hr' : ¬ 0 ≤ r := by omega
  simp only [List.filter_append, List.length_append, this.1, this.2]
  simp [List.filter_cons, hr, hr']

theorem map_range_mem (send : Nat → Int) (i k : Nat) (h : ∀ j : Nat, j < k → 0 ≤ send (i + j)) :
    ∀ r ∈ (List.range' i k).map send, 0 ≤ r := by
  intro r hr
  simp only [List.mem_map, List.mem_range'_1] at hr
  obtain ⟨a, ⟨h1, h2⟩, rfl⟩ := hr
  have := h (a - i) (by omega)
  rwa [show i + (a - i) = a by omega] at this

/-! ## The two regulators in terms of the skeleton -/

theorem edge_run (K : Consts) (env : EdgeEnv) (conn : edge_connection_t) (fuel : Nat)
    (hcong : env.connection_outbuf_too_full = false)
    (hcirc : env.circuit_get_by_edge_conn ≠ none) :
    sendme_connection_edge_consider_sending K env conn fuel =
      (replenish (K.STREAMWINDOW_START - K.STREAMWINDOW_INCREMENT) K.STREAMWINDOW_INCREMENT
        env.connection_edge_send_command fuel 0 conn.deliver_window).map
        (fun p => ({ conn with deliver_window := p.1 },
          edgeEvents (if conn.base_.type = ConnType.CONN_TYPE_AP then LogDomain.LD_APP
            else LogDomain.LD_EXIT) p.2)) := by
  unfold sendme_connection_edge_consider_sending
  simp only [hcong, hcirc, if_false, Bool.false_eq_true, edge_loop_eq, List.nil_append]

theorem circ_run (K : Consts) (send : Nat → Int) (m : CircMem) (h : Option Nat) (fuel : Nat) :
    sendme_circuit_consider_sending K send m h fuel =
      (replenish (K.CIRCWINDOW_START - K.CIRCWINDOW_INCREMENT) K.CIRCWINDOW_INCREMENT
        send fuel 0 (subjectWindow m h)).map
        (fun p => (setSubject m h p.1, circEvents h p.2)) := by
  unfold sendme_circuit_consider_sending
  simp only [circ_loop_eq, List.nil_append]

theorem subjectWindow_setSubject (m : CircMem) (h : Option Nat) (w : Int) :
    subjectWindow (setSubject m h w) h = w := by
  cases h <;> simp [subjectWindow, setSubject]

theorem acks_edgeEvents_ok (d : LogDomain) (send : Nat → Int) (k : Nat)
    (h : ∀ j : Nat, j < k → 0 ≤ send (0 + j)) :
    acks (edgeEvents d ((List.range' 0 k).map send)) = k ∧
      attempts (edgeEvents d ((List.range' 0 k).map send)) = k := by
  have := filter_ok_of_all _ (map_range_mem send 0 k h)
  simp [acks, attempts, sendResults_edgeEvents, this.1]

theorem acks_circEvents_ok (l : Option Nat) (send : Nat → Int) (k : Nat)
    (h : ∀ j : Nat, j < k → 0 ≤ send (0 + j)) :
    acks (circEvents l ((List.range' 0 k).map send)) = k ∧
      attempts (circEvents l ((List.range' 0 k).map send)) = k := by
  have := filter_ok_of_all _ (map_range_mem send 0 k h)
  simp [acks, attempts, sendResults_circEvents, this.1]

/-! ## More fuel never changes the outcome -/

theorem replenish_succ (thr inc : Int) (send : Nat → Int) :
    ∀ (fuel i : Nat) (w : Int) (r : Int × List Int),
      replenish thr inc send fuel i w = some r →
      replenish thr inc send (fuel + 1) i w = some r := by
  intro fuel
  induction fuel with
  | zero => intro i w r h; simp [replenish] at h
  | succ f ih =>
    intro i w r h
    rw [replenish] at h
    rw [replenish]
    by_cases hw : w ≤ thr
    · rw [if_pos hw] at h ⊢
      by_cases h0 : send i < 0
      · rw [if_pos h0] at h ⊢
        exact h
      · rw [if_neg h0] at h ⊢
        cases hr : replenish thr inc send f (i + 1) (w + inc) with
        | none => simp [hr] at h
        | some p =>
          rw [hr] at h
          rw [ih _ _ _ hr]
          exact h
    · rw [if_neg hw] at h ⊢
      exact h

theorem replenish_mono (thr inc : Int) (send : Nat → Int) (i : Nat) (w : Int)
    (r : Int × List Int) (fuel : Nat) (h : replenish thr inc send fuel i w = some r) :
    ∀ fuel' : Nat, fuel ≤ fuel' → replenish thr inc send fuel' i w = some r := by
  intro fuel' hle
  induction fuel' with
  | zero =>
    have : fuel = 0 := by omega
    rwa [this] at h
  | succ f ih =>
    by_cases hf : fuel = f + 1
    · rwa [hf] at h
    · exact replenish_succ thr inc send f i w r (ih (by omega))

theorem replenish_unique (thr inc : Int) (send : Nat → Int) (i : Nat) (w : Int)
    (r1 r2 : Int × List Int) (f1 f2 : Nat) (h1 : replenish thr inc send f1 i w = some r1)
    (h2 : replenish thr inc send f2 i w = some r2) : r1 = r2 := by
  have a := replenish_mono thr inc send i w r1 f1 h1 (max f1 f2) (le_max_left _ _)
  have b := replenish_mono thr inc send i w r2 f2 h2 (max f1 f2) (le_max_right _ _)
  rw [a] at b
  exact Option.some.inj b

/-- Two returning runs of the stream regulator from the same state agree. -/
theorem edge_unique (K : Consts) (env : EdgeEnv) (conn : edge_connection_t) (f1 f2 : Nat)
    (r1 r2 : edge_connection_t × List Event)
    (h1 : sendme_connection_edge_consider_sending K env conn f1 = some r1)
    (h2 : sendme_connection_edge_consider_sending K env conn f2 = some r2) : r1 = r2 := by
  cases hc : env.connection_outbuf_too_full with
  | true =>
    simp only [sendme_connection_edge_consider_sending, hc, if_true] at h1 h2
    rw [h1] at h2
    exact Option.some.inj h2
  | false =>
    by_cases hn : env.circuit_get_by_edge_conn = none
    · simp only [sendme_connection_edge_consider_sending, hc, hn, if_true, if_false,
        Bool.false_eq_true] at h1 h2
      rw [h1] at h2
      exact Option.some.inj h2
    · rw [edge_run K env conn _ hc hn, Option.map_eq_some'] at h1 h2
      obtain ⟨p1, hp1, rfl⟩ := h1
      obtain ⟨p2, hp2, rfl⟩ := h2
      rw [replenish_unique _ _ _ _ _ _ _ _ _ hp1 hp2]

/-- Two returning runs of the circuit regulator from the same state agree. -/
theorem circ_unique (K : Consts) (send : Nat → Int) (m : CircMem) (h : Option Nat)
    (f1 f2 : Nat) (r1 r2 : CircMem × List Event)
    (h1 : sendme_circuit_consider_sending K send m h f1 = some r1)
    (h2 : sendme_circuit_consider_sending K send m h f2 = some r2) : r1 = r2 := by
  rw [circ_run, Option.map_eq_some'] at h1 h2
  obtain ⟨p1, hp1, rfl⟩ := h1
  obtain ⟨p2, hp2, rfl⟩ := h2
  rw [replenish_unique _ _ _ _ _ _ _ _ _ hp1 hp2]

/-! ## Runs with a known number of attempts -/

theorem range_map_fail_shape (send : Nat → Int) (k : Nat)
    (hs : ∀ j : Nat, j < k → 0 ≤ send j) :
    (List.range' 0 (k + 1)).map send = (List.range' 0 k).map send ++ [send k] ∧
      ∀ x ∈ (List.range' 0 k).map send, 0 ≤ x := by
  refine ⟨by simp [List.range'_concat], map_range_mem send 0 k (fun j hj => ?_)⟩
  simpa using hs j hj

/-- A stream run in which the first `k` sends succeed and lift the window above
the threshold. -/
theorem edge_ok_run (K : Consts) (env : EdgeEnv) (conn : edge_connection_t) (k fuel : Nat)
    (hcong : env.connection_outbuf_too_full = false)
    (hcirc : env.circuit_get_by_edge_conn ≠ none)
    (hle : ∀ j : Nat, j < k → conn.deliver_window + j * K.STREAMWINDOW_INCREMENT ≤
      K.STREAMWINDOW_START - K.STREAMWINDOW_INCREMENT)
    (hgt : K.STREAMWINDOW_START - K.STREAMWINDOW_INCREMENT <
      conn.deliver_window + k * K.STREAMWINDOW_INCREMENT)
    (hs : ∀ j : Nat, j < k → 0 ≤ env.connection_edge_send_command j) (hf : k < fuel) :
    ∃ (conn' : edge_connection_t) (tr : List Event),
      sendme_connection_edge_consider_sending K env conn fuel = some (conn', tr) ∧
      acks tr = k ∧ attempts tr = k ∧ failures tr = 0 ∧ logCount Severity.warn tr = 0 ∧
      sendResults tr = (List.range' 0 k).map env.connection_edge_send_command ∧
      conn'.deliver_window = conn.deliver_window + k * K.STREAMWINDOW_INCREMENT ∧
      conn'.base_ = conn.base_ := by
  have hs' : ∀ j : Nat, j < k → 0 ≤ env.connection_edge_send_command (0 + j) := by
    intro j hj; simpa using hs j hj
  have hrun := replenish_all_ok (K.STREAMWINDOW_START - K.STREAMWINDOW_INCREMENT)
    K.STREAMWINDOW_INCREMENT env.connection_edge_send_command k fuel 0 conn.deliver_window
    hle hgt hs' hf
  have hall := filter_ok_of_all _ (map_range_mem env.connection_edge_send_command 0 k hs')
  refine ⟨{ conn with
      deliver_window := conn.deliver_window + k * K.STREAMWINDOW_INCREMENT },
    edgeEvents (if conn.base_.type = ConnType.CONN_TYPE_AP then LogDomain.LD_APP
      else LogDomain.LD_EXIT) ((List.range' 0 k).map env.connection_edge_send_command),
    by rw [edge_run K env conn fuel hcong hcirc, hrun]; rfl, ?_, ?_, ?_, ?_, ?_, rfl, rfl⟩
  · simp [acks, sendResults_edgeEvents, hall.1]
  · simp [attempts, sendResults_edgeEvents]
  · simpa [failures, sendResults_edgeEvents] using hall.2
  · rw [logCount_warn_edgeEvents]; exact hall.2
  · simp [sendResults_edgeEvents]

/-- A stream run in which the first `k` sends succeed and send number `k`
fails while the window is still at or below the threshold. -/
theorem edge_fail_run (K : Consts) (env : EdgeEnv) (conn : edge_connection_t) (k fuel : Nat)
    (hcong : env.connection_outbuf_too_full = false)
    (hcirc : env.circuit_get_by_edge_conn ≠ none)
    (hle : ∀ j : Nat, j ≤ k → conn.deliver_window + j * K.STREAMWINDOW_INCREMENT ≤
      K.STREAMWINDOW_START - K.STREAMWINDOW_INCREMENT)
    (hs : ∀ j : Nat, j < k → 0 ≤ env.connection_edge_send_command j)
    (hfail : env.connection_edge_send_command k < 0) (hf : k < fuel) :
    ∃ (conn' : edge_connection_t) (tr : List Event),
      sendme_connection_edge_consider_sending K env conn fuel = some (conn', tr) ∧
      acks tr = k ∧ attempts tr = k + 1 ∧ failures tr = 1 ∧ logCount Severity.warn tr = 1 ∧
      sendResults tr = (List.range' 0 (k + 1)).map env.connection_edge_send_command ∧
      conn'.deliver_window = conn.deliver_window + (k + 1 : Nat) * K.STREAMWINDOW_INCREMENT ∧
      conn'.base_ = conn.base_ := by
  have hrun := replenish_fail (K.STREAMWINDOW_START - K.STREAMWINDOW_INCREMENT)
    K.STREAMWINDOW_INCREMENT env.connection_edge_send_command k fuel 0 conn.deliver_window
    hle (fun j hj => by simpa using hs j hj) (by simpa using hfail) hf
  obtain ⟨hshape, hpre⟩ := range_map_fail_shape env.connection_edge_send_command k hs
  have hcnt := filter_fail_last _ _ hpre hfail
  rw [← hshape] at hcnt
  refine ⟨{ conn with
      deliver_window := conn.deliver_window + (k + 1 : Nat) * K.STREAMWINDOW_INCREMENT },
    edgeEvents (if conn.base_.type = ConnType.CONN_TYPE_AP then LogDomain.LD_APP
      else LogDomain.LD_EXIT) ((List.range' 0 (k + 1)).map env.connection_edge_send_command),
    by rw [edge_run K env conn fuel hcong hcirc, hrun]; rfl, ?_, ?_, ?_, ?_, ?_, rfl, rfl⟩
  · simpa [acks, sendResults_edgeEvents] using hcnt.1
  · simp [attempts, sendResults_edgeEvents]
  · simpa [failures, sendResults_edgeEvents] using hcnt.2
  · rw [logCount_warn_edgeEvents]; exact hcnt.2
  · simp [sendResults_edgeEvents]

/-- A circuit run in which the first `k` sends succeed and lift the subject
window above the threshold. -/
theorem circ_ok_run (K : Consts) (send : Nat → Int) (m : CircMem) (h : Option Nat)
    (k fuel : Nat)
    (hle : ∀ j : Nat, j < k → subjectWindow m h + j * K.CIRCWINDOW_INCREMENT ≤
      K.CIRCWINDOW_START - K.CIRCWINDOW_INCREMENT)
    (hgt : K.CIRCWINDOW_START - K.CIRCWINDOW_INCREMENT <
      subjectWindow m h + k * K.CIRCWINDOW_INCREMENT)
    (hs : ∀ j : Nat, j < k → 0 ≤ send j) (hf : k < fuel) :
    ∃ tr : List Event,
      sendme_circuit_consider_sending K send m h fuel =
        some (setSubject m h (subjectWindow m h + k * K.CIRCWINDOW_INCREMENT), tr) ∧
      acks tr = k ∧ attempts tr = k ∧ failures tr = 0 ∧ logCount Severity.warn tr = 0 ∧
      sendResults tr = (List.range' 0 k).map send := by
  have hs' : ∀ j : Nat, j < k → 0 ≤ send (0 + j) := by
    intro j hj; simpa using hs j hj
  have hrun := replenish_all_ok (K.CIRCWINDOW_START - K.CIRCWINDOW_INCREMENT)
    K.CIRCWINDOW_INCREMENT send k fuel 0 (subjectWindow m h) hle hgt hs' hf
  have hall := filter_ok_of_all _ (map_range_mem send 0 k hs')
  refine ⟨_, by rw [circ_run, hrun]; rfl, ?_, ?_, ?_, ?_, ?_⟩
  · simp [acks, sendResults_circEvents, hall.1]
  · simp [attempts, sendResults_circEvents]
  · simpa [failures, sendResults_circEvents] using hall.2
  · rw [logCount_warn_circEvents]; exact hall.2
  · simp [sendResults_circEvents]

/-- A circuit run in which the first `k` sends succeed and send number `k`
fails while the subject window is still at or below the threshold. -/
theorem circ_fail_run (K : Consts) (send : Nat → Int) (m : CircMem) (h : Option Nat)
    (k fuel : Nat)
    (hle : ∀ j : Nat, j ≤ k → subjectWindow m h + j * K.CIRCWINDOW_INCREMENT ≤
      K.CIRCWINDOW_START - K.CIRCWINDOW_INCREMENT)
    (hs : ∀ j : Nat, j < k → 0 ≤ send j) (hfail : send k < 0) (hf : k < fuel) :
    ∃ tr : List Event,
      sendme_circuit_consider_sending K send m h fuel =
        some (setSubject m h (subjectWindow m h + (k + 1 : Nat) * K.CIRCWINDOW_INCREMENT), tr) ∧
      acks tr = k ∧ attempts tr = k + 1 ∧ failures tr = 1 ∧ logCount Severity.warn tr = 1 ∧
      sendResults tr = (List.range' 0 (k + 1)).map send := by
  have hrun := replenish_fail (K.CIRCWINDOW_START - K.CIRCWINDOW_INCREMENT)
    K.CIRCWINDOW_INCREMENT send k fuel 0 (subjectWindow m h)
    hle (fun j hj => by simpa using hs j hj) (by simpa using hfail) hf
  obtain ⟨hshape, hpre⟩ := range_map_fail_shape send k hs
  have hcnt := filter_fail_last _ _ hpre hfail
  rw [← hshape] at hcnt
  refine ⟨_, by rw [circ_run, hrun]; rfl, ?_, ?_, ?_, ?_, ?_⟩
  · simpa [acks, sendResults_circEvents] using hcnt.1
  · simp [attempts, sendResults_circEvents]
  · simpa [failures, sendResults_circEvents] using hcnt.2
  · rw [logCount_warn_circEvents]; exact hcnt.2
  · simp [sendResults_circEvents]

/-- A returning run of the circuit regulator only rewrites the subject
window. -/
theorem circ_result_shape (K : Consts) (send : Nat → Int) (m : CircMem) (h : Option Nat)
    (fuel : Nat) (m' : CircMem) (tr : List Event)
    (hrun : sendme_circuit_consider_sending K send m h fuel = some (m', tr)) :
    ∃ (w' : Int) (rs : List Int),
      replenish (K.CIRCWINDOW_START - K.CIRCWINDOW_INCREMENT) K.CIRCWINDOW_INCREMENT
        send fuel 0 (subjectWindow m h) = some (w', rs) ∧
      m' = setSubject m h w' ∧ tr = circEvents h rs := by
  rw [circ_run, Option.map_eq_some'] at hrun
  obtain ⟨⟨w', rs⟩, hp, heq⟩ := hrun
  simp only [Prod.mk.injEq] at heq
  exact ⟨w', rs, hp, heq.1.symm, heq.2.symm⟩

/-! ## A failed send is the last send -/

/-- In the results of a run every send but the last one succeeded. -/
theorem run_results_dropLast (send : Nat → Int) (i k : Nat)
    (hok : ∀ j : Nat, j + 1 < k → 0 ≤ send (i + j)) :
    ∀ r ∈ ((List.range' i k).map send).dropLast, 0 ≤ r := by
  cases k with
  | zero => intro r hr; simp at hr
  | succ k' =>
    rw [List.range'_concat, List.map_append, List.map_singleton, List.dropLast_concat]
    exact map_range_mem send i k' (fun j hj => hok j (by omega))

theorem no_send_after_failure (rs : List Int) (h : ∀ r ∈ rs.dropLast, 0 ≤ r) :
    (∀ (a b : List Int) (r : Int), rs = a ++ r :: b → r < 0 → b = []) ∧
      (rs.filter (fun r => decide (r < 0))).length ≤ 1 ∧
      ((rs.filter (fun r => decide (r < 0))).length = 1 ↔ ∃ r ∈ rs, r < 0) := by
  have hcnt : (rs.filter (fun r => decide (r < 0))).length ≤ 1 ∧
      ((rs.filter (fun r => decide (r < 0))).length = 1 ↔ ∃ r ∈ rs, r < 0) := by
    rcases List.eq_nil_or_concat rs with rfl | ⟨pre, x, rfl⟩
    · simp
    · rw [List.concat_eq_append] at h ⊢
      rw [List.dropLast_concat] at h
      by_cases hx : x < 0
      · have := (filter_fail_last pre x h hx).2
        exact ⟨by omega, fun _ => ⟨x, by simp, hx⟩, fun _ => this⟩
      · have hall : ∀ r ∈ pre ++ [x], 0 ≤ r := by
          intro r hr
          rcases List.mem_append.1 hr with hr | hr
          · exact h r hr
          · simp at hr; omega
        have := (filter_ok_of_all _ hall).2
        refine ⟨by omega, fun h1 => by omega, fun ⟨r, hr, hneg⟩ => ?_⟩
        have := hall r hr
        omega
  refine ⟨?_, hcnt.1, hcnt.2⟩
  intro a b r hrs hneg
  by_contra hb
  have hmem : r ∈ rs.dropLast := by
    rw [hrs, List.dropLast_append_cons, List.dropLast_cons_of_ne_nil hb]
    simp
  have := h r hmem
  omega

/-- What every returning stream run looks like: the endpoint keeps everything
but its window, and the trace has no failed send before its last send. -/
theorem edge_result_shape (K : Consts) (env : EdgeEnv) (conn : edge_connection_t)
    (fuel : Nat) (conn' : edge_connection_t) (tr : List Event)
    (hrun : sendme_connection_edge_consider_sending K env conn fuel = some (conn', tr)) :
    (∀ r ∈ (sendResults tr).dropLast, 0 ≤ r) ∧ logCount Severity.warn tr = failures tr := by
  cases hc : env.connection_outbuf_too_full with
  | true =>
    simp only [sendme_connection_edge_consider_sending, hc, if_true, Option.some.injEq,
      Prod.mk.injEq] at hrun
    rw [← hrun.2]
    exact ⟨by simp [sendResults], rfl⟩
  | false =>
    by_cases hn : env.circuit_get_by_edge_conn = none
    · simp only [sendme_connection_edge_consider_sending, hc, hn, if_true, if_false,
        Bool.false_eq_true, Option.some.injEq, Prod.mk.injEq] at hrun
      rw [← hrun.2]
      exact ⟨by simp [sendResults], by simp [logCount, failures, sendResults]⟩
    · rw [edge_run K env conn _ hc hn, Option.map_eq_some'] at hrun
      obtain ⟨⟨w', rs⟩, hp, heq⟩ := hrun
      simp only [Prod.mk.injEq] at heq
      obtain ⟨k, hrs, _, _, hok, _⟩ := replenish_sound _ _ _ _ _ _ _ _ hp
      rw [← heq.2]
      refine ⟨?_, by simp [failures, logCount_warn_edgeEvents, sendResults_edgeEvents]⟩
      rw [sendResults_edgeEvents, hrs]
      exact run_results_dropLast _ 0 k hok

/-- The same for the circuit regulator. -/
theorem circ_trace_shape (K : Consts) (send : Nat → Int) (m : CircMem) (h : Option Nat)
    (fuel : Nat) (m' : CircMem) (tr : List Event)
    (hrun : sendme_circuit_consider_sending K send m h fuel = some (m', tr)) :
    (∀ r ∈ (sendResults tr).dropLast, 0 ≤ r) ∧ logCount Severity.warn tr = failures tr := by
  obtain ⟨w', rs, hp, _, rfl⟩ := circ_result_shape K send m h fuel m' tr hrun
  obtain ⟨k, hrs, _, _, hok, _⟩ := replenish_sound _ _ _ _ _ _ _ _ hp
  refine ⟨?_, by simp [failures, logCount_warn_circEvents, sendResults_circEvents]⟩
  rw [sendResults_circEvents, hrs]
  exact run_results_dropLast _ 0 k hok

/-- The stream regulator returns once the fuel exceeds the number of
replenishments needed. -/
theorem edge_isSome (K : Consts) (env : EdgeEnv) (conn : edge_connection_t) (fuel : Nat)
    (hinc : 0 < K.STREAMWINDOW_INCREMENT)
    (hfuel : needed (K.STREAMWINDOW_START - K.STREAMWINDOW_INCREMENT) K.STREAMWINDOW_INCREMENT
      conn.deliver_window < fuel) :
    (sendme_connection_edge_consider_sending K env conn fuel).isSome = true := by
  cases hc : env.connection_outbuf_too_full with
  | true => simp [sendme_connection_edge_consider_sending, hc]
  | false =>
    by_cases hn : env.circuit_get_by_edge_conn = none
    · simp [sendme_connection_edge_consider_sending, hc, hn]
    · rw [edge_run K env conn _ hc hn, Option.isSome_map']
      exact replenish_isSome _ _ _ fuel _ 0 _ (needed_gt _ _ _ hinc) hfuel

/-- The circuit regulator returns once the fuel exceeds the number of
replenishments needed. -/
theorem circ_isSome (K : Consts) (send : Nat → Int) (m : CircMem) (h : Option Nat)
    (fuel : Nat) (hinc : 0 < K.CIRCWINDOW_INCREMENT)
    (hfuel : needed (K.CIRCWINDOW_START - K.CIRCWINDOW_INCREMENT) K.CIRCWINDOW_INCREMENT
      (subjectWindow m h) < fuel) :
    (sendme_circuit_consider_sending K send m h fuel).isSome = true := by
  rw [circ_run, Option.isSome_map']
  exact replenish_isSome _ _ _ fuel _ 0 _ (needed_gt _ _ _ hinc) hfuel

/-! ## Every returning run, described -/

/-- Counting in the results of a run whose last send failed. -/
theorem counts_fail (send : Nat → Int) (k : Nat)
    (hok : ∀ j : Nat, j + 1 < k + 1 → 0 ≤ send (0 + j)) (hfail : send (0 + k) < 0) :
    (((List.range' 0 (k + 1)).map send).filter (fun r => decide (0 ≤ r))).length = k ∧
      (((List.range' 0 (k + 1)).map send).filter (fun r => decide (r < 0))).length = 1 := by
  have hs : ∀ j : Nat, j < k → 0 ≤ send j := fun j hj => by simpa using hok j (by omega)
  obtain ⟨hshape, hpre⟩ := range_map_fail_shape send k hs
  have hcnt := filter_fail_last _ _ hpre (by simpa using hfail)
  rw [← hshape] at hcnt
  simpa using hcnt

/-- Every returning run of the skeleton, with the counts of its results. -/
theorem replenish_counts (thr inc : Int) (send : Nat → Int) (fuel : Nat) (w w' : Int)
    (rs : List Int) (h : replenish thr inc send fuel 0 w = some (w', rs)) :
    ∃ k : Nat, rs = (List.range' 0 k).map send ∧ rs.length = k ∧ w' = w + k * inc ∧
      (∀ j : Nat, j < k → w + j * inc ≤ thr) ∧
      ((∃ k', k = k' + 1 ∧ send k' < 0 ∧
          (rs.filter (fun r => decide (0 ≤ r))).length = k' ∧
          (rs.filter (fun r => decide (r < 0))).length = 1 ∧ rs.getLast? = some (send k')) ∨
        ((rs.filter (fun r => decide (0 ≤ r))).length = k ∧
          (rs.filter (fun r => decide (r < 0))).length = 0 ∧ thr < w')) := by
  obtain ⟨k, hrs, hw', hle, hok, hend⟩ := replenish_sound thr inc send fuel 0 w w' rs h
  refine ⟨k, hrs, by simp [hrs], hw', hle, ?_⟩
  rcases hend with ⟨k', rfl, hfail⟩ | ⟨hall, hgt⟩
  · have hc := counts_fail send k' hok hfail
    rw [← hrs] at hc
    refine Or.inl ⟨k', rfl, by simpa using hfail, hc.1, hc.2, ?_⟩
    rw [hrs, List.range'_concat]
    simp
  · have hc := filter_ok_of_all _ (map_range_mem send 0 k hall)
    rw [← hrs] at hc
    exact Or.inr ⟨by rw [hc.1]; simp [hrs], hc.2, hgt⟩

/-- Every returning run of the stream regulator: `k` send attempts, the window
raised `k` times, either the last attempt failed or the call left through a
gate or with the window above the threshold. -/
theorem edge_run_sound (K : Consts) (env : EdgeEnv) (conn : edge_connection_t)
    (fuel : Nat) (conn' : edge_connection_t) (tr : List Event)
    (hrun : sendme_connection_edge_consider_sending K env conn fuel = some (conn', tr)) :
    ∃ k : Nat, attempts tr = k ∧
      sendResults tr = (List.range' 0 k).map env.connection_edge_send_command ∧
      conn'.deliver_window = conn.deliver_window + k * K.STREAMWINDOW_INCREMENT ∧
      conn'.base_ = conn.base_ ∧
      (∀ j : Nat, j < k → conn.deliver_window + j * K.STREAMWINDOW_INCREMENT ≤
        K.STREAMWINDOW_START - K.STREAMWINDOW_INCREMENT) ∧
      ((∃ k', k = k' + 1 ∧ env.connection_edge_send_command k' < 0 ∧ acks tr = k' ∧
          failures tr = 1 ∧ (sendResults tr).getLast? = some (env.connection_edge_send_command k') ∧
          env.connection_outbuf_too_full = false ∧ env.circuit_get_by_edge_conn ≠ none) ∨
        (acks tr = k ∧ failures tr = 0 ∧
          (env.connection_outbuf_too_full = true ∨ env.circuit_get_by_edge_conn = none ∨
            K.STREAMWINDOW_START - K.STREAMWINDOW_INCREMENT < conn'.deliver_window))) := by
  cases hc : env.connection_outbuf_too_full with
  | true =>
    simp only [sendme_connection_edge_consider_sending, hc, if_true, Option.some.injEq,
      Prod.mk.injEq] at hrun
    obtain ⟨rfl, rfl⟩ := hrun
    exact ⟨0, rfl, rfl, by simp, rfl, fun j hj => by omega, Or.inr ⟨rfl, rfl, Or.inl rfl⟩⟩
  | false =>
    by_cases hn : env.circuit_get_by_edge_conn = none
    · simp only [sendme_connection_edge_consider_sending, hc, hn, if_true, if_false,
        Bool.false_eq_true, Option.some.injEq, Prod.mk.injEq] at hrun
      obtain ⟨rfl, rfl⟩ := hrun
      exact ⟨0, rfl, rfl, by simp, rfl, fun j hj => by omega,
        Or.inr ⟨rfl, rfl, Or.inr (Or.inl hn)⟩⟩
    · rw [edge_run K env conn _ hc hn, Option.map_eq_some'] at hrun
      obtain ⟨⟨w', rs⟩, hp, heq⟩ := hrun
      simp only [Prod.mk.injEq] at heq
      obtain ⟨rfl, rfl⟩ := heq
      obtain ⟨k, hrs, hlen, hw', hle, hend⟩ := replenish_counts _ _ _ _ _ _ _ hp
      refine ⟨k, by simp [attempts, sendResults_edgeEvents, hlen],
        by rw [sendResults_edgeEvents]; exact hrs, hw', rfl, hle, ?_⟩
      rcases hend with ⟨k', hk, hfail, ha, hf, hlast⟩ | ⟨ha, hf, hgt⟩
      · exact Or.inl ⟨k', hk, hfail, by simpa [acks, sendResults_edgeEvents] using ha,
          by simpa [failures, sendResults_edgeEvents] using hf,
          by rw [sendResults_edgeEvents]; exact hlast, rfl, hn⟩
      · exact Or.inr ⟨by simpa [acks, sendResults_edgeEvents] using ha,
          by simpa [failures, sendResults_edgeEvents] using hf, Or.inr (Or.inr hgt)⟩

/-- Every returning run of the circuit regulator: `k` send attempts, the
subject window raised `k` times, either the last attempt failed or the subject
window is above the threshold. -/
theorem circ_run_sound (K : Consts) (send : Nat → Int) (m : CircMem) (h : Option Nat)
    (fuel : Nat) (m' : CircMem) (tr : List Event)
    (hrun : sendme_circuit_consider_sending K send m h fuel = some (m', tr)) :
    ∃ k : Nat, attempts tr = k ∧ sendResults tr = (List.range' 0 k).map send ∧
      m' = setSubject m h (subjectWindow m h + k * K.CIRCWINDOW_INCREMENT) ∧
      tr = circEvents h ((List.range' 0 k).map send) ∧
      (∀ j : Nat, j < k → subjectWindow m h + j * K.CIRCWINDOW_INCREMENT ≤
        K.CIRCWINDOW_START - K.CIRCWINDOW_INCREMENT) ∧
      ((∃ k', k = k' + 1 ∧ send k' < 0 ∧ acks tr = k' ∧ failures tr = 1 ∧
          (sendResults tr).getLast? = some (send k')) ∨
        (acks tr = k ∧ failures tr = 0 ∧
          K.CIRCWINDOW_START - K.CIRCWINDOW_INCREMENT < subjectWindow m' h)) := by
  obtain ⟨w', rs, hp, rfl, rfl⟩ := circ_result_shape K send m h fuel m' tr hrun
  obtain ⟨k, hrs, hlen, hw', hle, hend⟩ := replenish_counts _ _ _ _ _ _ _ hp
  refine ⟨k, by simp [attempts, sendResults_circEvents, hlen],
    by rw [sendResults_circEvents]; exact hrs, by rw [hw'], by rw [hrs], hle, ?_⟩
  rcases hend with ⟨k', hk, hfail, ha, hf, hlast⟩ | ⟨ha, hf, hgt⟩
  · exact Or.inl ⟨k', hk, hfail, by simpa [acks, sendResults_circEvents] using ha,
      by simpa [failures, sendResults_circEvents] using hf,
      by rw [sendResults_circEvents]; exact hlast⟩
  · exact Or.inr ⟨by simpa [acks, sendResults_circEvents] using ha,
      by simpa [failures, sendResults_circEvents] using hf,
      by rw [subjectWindow_setSubject]; exact hgt⟩

/-- The bound on the number of replenishments, written with `max`. -/
theorem needed_eq_max (thr inc w : Int) :
    (needed thr inc w : Int) = max 0 ((thr - w) / inc + 1) := by
  unfold needed
  rw [Int.toNat_eq_max, max_comm]

/-- A run never makes more attempts than `needed`. -/
theorem attempts_le_needed (thr inc w : Int) (hinc : 0 < inc) (k : Nat)
    (hle : ∀ j : Nat, j < k → w + j * inc ≤ thr) : k ≤ needed thr inc w := by
  by_contra hlt
  have h1 := hle (needed thr inc w) (by omega)
  have h2 := needed_gt thr inc w hinc
  omega

/-- While the skeleton has not returned it is replenishing: every iteration the
fuel paid for found the window at or below the threshold and its send
succeeded. -/
theorem replenish_none (thr inc : Int) (send : Nat → Int) :
    ∀ (fuel i : Nat) (w : Int), replenish thr inc send fuel i w = none →
      ∀ j : Nat, j < fuel → w + j * inc ≤ thr ∧ 0 ≤ send (i + j) := by
  intro fuel
  induction fuel with
  | zero => intro i w _ j hj; omega
  | succ f ih =>
    intro i w h j hj
    rw [replenish] at h
    by_cases hw : w ≤ thr
    · rw [if_pos hw] at h
      by_cases h0 : send i < 0
      · rw [if_pos h0] at h
        exact absurd h (by simp)
      · rw [if_neg h0] at h
        have hrec : replenish thr inc send f (i + 1) (w + inc) = none := by
          simpa using h
        cases j with
        | zero => exact ⟨by simpa using hw, by simpa using h0⟩
        | succ j =>
          have := ih (i + 1) (w + inc) hrec j (by omega)
          refine ⟨?_, by rw [show i + (j + 1) = i + 1 + j by omega]; exact this.2⟩
          have h1 := this.1
          push_cast
          linarith
    · rw [if_neg hw] at h
      exact absurd h (by simp)

/-! ## The history of the window -/

theorem edge_loop_writes_eq (K : Consts) (env : EdgeEnv) :
    ∀ (fuel i : Nat) (conn : edge_connection_t),
      edge_loop_writes K env fuel i conn =
        (replenish (K.STREAMWINDOW_START - K.STREAMWINDOW_INCREMENT) K.STREAMWINDOW_INCREMENT
          env.connection_edge_send_command fuel i conn.deliver_window).map
          (fun p => writesOf K.STREAMWINDOW_INCREMENT conn.deliver_window p.2.length) := by
  intro fuel
  induction fuel with
  | zero => intro i conn; simp [edge_loop_writes, replenish]
  | succ f ih =>
    intro i conn
    unfold edge_loop_writes replenish
    by_cases hw : conn.deliver_window ≤ K.STREAMWINDOW_START - K.STREAMWINDOW_INCREMENT
    · by_cases h0 : env.connection_edge_send_command i < 0
      · simp [hw, h0, writesOf]
      · simp only [hw, h0, if_true, if_false, ih, Option.map_map]
        congr 1
    · simp [hw, writesOf]

theorem circ_loop_writes_eq (K : Consts) (send : Nat → Int) (h : Option Nat) :
    ∀ (fuel i : Nat) (m : CircMem),
      circ_loop_writes K send h fuel i m =
        (replenish (K.CIRCWINDOW_START - K.CIRCWINDOW_INCREMENT) K.CIRCWINDOW_INCREMENT
          send fuel i (subjectWindow m h)).map
          (fun p => writesOf K.CIRCWINDOW_INCREMENT (subjectWindow m h) p.2.length) := by
  intro fuel
  induction fuel with
  | zero => intro i m; simp [circ_loop_writes, replenish]
  | succ f ih =>
    intro i m
    unfold circ_loop_writes replenish
    by_cases hw : subjectWindow m h ≤ K.CIRCWINDOW_START - K.CIRCWINDOW_INCREMENT
    · by_cases h0 : send i < 0
      · simp [hw, h0, writesOf, subjectWindow_bump]
      · simp only [hw, h0, if_true, if_false, ih, Option.map_map, subjectWindow_bump]
        congr 1
    · simp [hw, writesOf]

theorem writesOf_eq_map (inc : Int) :
    ∀ (k : Nat) (w : Int), writesOf inc w k =
      (List.range k).map (fun j : Nat => (w + j * inc, w + (j + 1) * inc)) := by
  intro k
  induction k with
  | zero => intro w; rfl
  | succ k ih =>
    intro w
    rw [writesOf, ih, List.range_succ_eq_map, List.map_cons, List.map_map]
    simp only [Nat.cast_zero, zero_mul, add_zero, zero_add, one_mul, List.cons.injEq, true_and]
    apply List.map_congr_left
    intro j _
    simp only [Function.comp, Nat.succ_eq_add_one, Nat.cast_add, Nat.cast_one, Prod.mk.injEq]
    constructor <;> ring

/-- The entries of a history of `k` increments from `w`, given that each was
applied at or below the threshold. -/
theorem writesOf_mem (thr inc w : Int) (k : Nat)
    (hle : ∀ j : Nat, j < k → w + j * inc ≤ thr) :
    ∀ p ∈ (List.range k).map (fun j : Nat => (w + j * inc, w + (j + 1) * inc)),
      p.1 ≤ thr ∧ p.2 = p.1 + inc ∧ (w ≤ thr + inc → p.2 ≤ thr + inc) := by
  intro p hp
  simp only [List.mem_map, List.mem_range] at hp
  obtain ⟨j, hj, rfl⟩ := hp
  have := hle j hj
  exact ⟨this, by ring, fun _ => by dsimp only; linarith⟩

/-- The history of a returning stream call. -/
theorem edge_writes_of_run (K : Consts) (env : EdgeEnv) (conn : edge_connection_t)
    (fuel : Nat) (conn' : edge_connection_t) (tr : List Event)
    (hrun : sendme_connection_edge_consider_sending K env conn fuel = some (conn', tr)) :
    sendme_connection_edge_writes K env conn fuel =
      some ((List.range (attempts tr)).map (fun j : Nat =>
        (conn.deliver_window + j * K.STREAMWINDOW_INCREMENT,
          conn.deliver_window + (j + 1) * K.STREAMWINDOW_INCREMENT))) := by
  cases hc : env.connection_outbuf_too_full with
  | true =>
    simp only [sendme_connection_edge_consider_sending, hc, if_true, Option.some.injEq,
      Prod.mk.injEq] at hrun
    obtain ⟨rfl, rfl⟩ := hrun
    simp [sendme_connection_edge_writes, hc, attempts, sendResults]
  | false =>
    by_cases hn : env.circuit_get_by_edge_conn = none
    · simp only [sendme_connection_edge_consider_sending, hc, hn, if_true, if_false,
        Bool.false_eq_true, Option.some.injEq, Prod.mk.injEq] at hrun
      obtain ⟨rfl, rfl⟩ := hrun
      simp [sendme_connection_edge_writes, hc, hn, attempts, sendResults]
    · rw [edge_run K env conn _ hc hn, Option.map_eq_some'] at hrun
      obtain ⟨⟨w', rs⟩, hp, heq⟩ := hrun
      simp only [Prod.mk.injEq] at heq
      obtain ⟨rfl, rfl⟩ := heq
      simp only [sendme_connection_edge_writes, hc, hn, if_false, Bool.false_eq_true,
        edge_loop_writes_eq, hp, Option.map_some', attempts, sendResults_edgeEvents,
        writesOf_eq_map]

/-- The history of a returning circuit call. -/
theorem circ_writes_of_run (K : Consts) (send : Nat → Int) (m : CircMem) (h : Option Nat)
    (fuel : Nat) (m' : CircMem) (tr : List Event)
    (hrun : sendme_circuit_consider_sending K send m h fuel = some (m', tr)) :
    sendme_circuit_writes K send m h fuel =
      some ((List.range (attempts tr)).map (fun j : Nat =>
        (subjectWindow m h + j * K.CIRCWINDOW_INCREMENT,
          subjectWindow m h + (j + 1) * K.CIRCWINDOW_INCREMENT))) := by
  obtain ⟨w', rs, hp, _, rfl⟩ := circ_result_shape K send m h fuel m' tr hrun
  simp only [sendme_circuit_writes, circ_loop_writes_eq, hp, Option.map_some', attempts,
    sendResults_circEvents, writesOf_eq_map]

/-- Every event of the circuit loop is a log line or a call of
`relay_send_command_from_edge(0, circ, RELAY_COMMAND_SENDME, NULL, 0, layer_hint)`. -/
theorem circEvents_mem (h : Option Nat) (rs : List Int) :
    ∀ e ∈ circEvents h rs, (∃ (sev : Severity) (dom : LogDomain), e = Event.log sev dom) ∨
      ∃ r : Int, r ∈ rs ∧
        e = Event.relay_send_command_from_edge 0 RelayCommand.RELAY_COMMAND_SENDME none 0 h r := by
  induction rs with
  | nil => intro e he; simp [circEvents] at he
  | cons r t ih =>
    intro e he
    simp only [circEvents, List.cons_append, List.nil_append, List.mem_cons,
      List.mem_append] at he
    rcases he with rfl | rfl | he | he
    · exact Or.inl ⟨_, _, rfl⟩
    · exact Or.inr ⟨r, by simp, rfl⟩
    · by_cases h0 : r < 0
      · simp only [h0, if_true, List.mem_singleton] at he
        exact Or.inl ⟨_, _, he⟩
      · simp [h0] at he
    · rcases ih e he with hl | ⟨r', hr', he'⟩
      · exact Or.inl hl
      · exact Or.inr ⟨r', by simp [hr'], he'⟩

/-! ## Claims -/

/-- C1. Stream regulator, every send succeeding: for an endpoint that is not
congested and has a circuit, a positive increment and an entry window `w` at or
below the threshold `STREAMWINDOW_START - STREAMWINDOW_INCREMENT`, the call
returns having emitted exactly `k` acknowledgments (and made no other send
attempt), where `k` is the least natural number with
`w + k * increment > threshold`; the window on return is `w + k * increment`,
which lies above the threshold and at or below
`threshold + increment = STREAMWINDOW_START`. -/
theorem C1_stream_all_sends_succeed (K : Consts) (env : EdgeEnv) (conn : edge_connection_t)
    (hcong : env.connection_outbuf_too_full = false)
    (hcirc : env.circuit_get_by_edge_conn ≠ none)
    (hinc : 0 < K.STREAMWINDOW_INCREMENT)
    (hw : conn.deliver_window ≤ K.STREAMWINDOW_START - K.STREAMWINDOW_INCREMENT)
    (hsend : ∀ j : Nat, 0 ≤ env.connection_edge_send_command j) :
    ∃ k : Nat,
      (K.STREAMWINDOW_START - K.STREAMWINDOW_INCREMENT <
          conn.deliver_window + k * K.STREAMWINDOW_INCREMENT ∧
        ∀ j : Nat, K.STREAMWINDOW_START - K.STREAMWINDOW_INCREMENT <
          conn.deliver_window + j * K.STREAMWINDOW_INCREMENT → k ≤ j) ∧
      ∀ fuel : Nat, k < fuel →
        ∃ (conn' : edge_connection_t) (tr : List Event),
          sendme_connection_edge_consider_sending K env conn fuel = some (conn', tr) ∧
          acks tr = k ∧ attempts tr = k ∧
          conn'.deliver_window = conn.deliver_window + k * K.STREAMWINDOW_INCREMENT ∧
          K.STREAMWINDOW_START - K.STREAMWINDOW_INCREMENT < conn'.deliver_window ∧
          conn'.deliver_window ≤
            (K.STREAMWINDOW_START - K.STREAMWINDOW_INCREMENT) + K.STREAMWINDOW_INCREMENT ∧
          (K.STREAMWINDOW_START - K.STREAMWINDOW_INCREMENT) + K.STREAMWINDOW_INCREMENT =
            K.STREAMWINDOW_START := by
  have hgt := needed_gt (K.STREAMWINDOW_START - K.STREAMWINDOW_INCREMENT)
    K.STREAMWINDOW_INCREMENT conn.deliver_window hinc
  have hle := needed_le (K.STREAMWINDOW_START - K.STREAMWINDOW_INCREMENT)
    K.STREAMWINDOW_INCREMENT conn.deliver_window hinc
  have hpos := needed_pos (K.STREAMWINDOW_START - K.STREAMWINDOW_INCREMENT)
    K.STREAMWINDOW_INCREMENT conn.deliver_window hinc hw
  refine ⟨needed (K.STREAMWINDOW_START - K.STREAMWINDOW_INCREMENT)
    K.STREAMWINDOW_INCREMENT conn.deliver_window, ⟨hgt, fun j hj => needed_least _ _ _ hinc j hj⟩,
    ?_⟩
  intro fuel hfuel
  have hrun := replenish_all_ok (K.STREAMWINDOW_START - K.STREAMWINDOW_INCREMENT)
    K.STREAMWINDOW_INCREMENT env.connection_edge_send_command _ fuel 0 conn.deliver_window
    hle hgt (fun j _ => hsend _) hfuel
  have hobs := acks_edgeEvents_ok
    (if conn.base_.type = ConnType.CONN_TYPE_AP then LogDomain.LD_APP else LogDomain.LD_EXIT)
    env.connection_edge_send_command
    (needed (K.STREAMWINDOW_START - K.STREAMWINDOW_INCREMENT)
      K.STREAMWINDOW_INCREMENT conn.deliver_window) (fun j _ => hsend _)
  refine ⟨_, _, by rw [edge_run K env conn fuel hcong hcirc, hrun]; rfl, hobs.1, hobs.2, rfl,
    hgt, ?_, by ring⟩
  obtain ⟨n, hn⟩ : ∃ n, needed (K.STREAMWINDOW_START - K.STREAMWINDOW_INCREMENT)
      K.STREAMWINDOW_INCREMENT conn.deliver_window = n + 1 := ⟨_, (Nat.succ_pred_eq_of_pos hpos).symm⟩
  have := hle n (by omega)
  show conn.deliver_window + _ * K.STREAMWINDOW_INCREMENT ≤ _
  rw [hn]
  push_cast
  linarith

/-- C1 at the quoted constants: an endpoint at window 350 with every send
succeeding. -/
theorem C1_stream_all_sends_succeed_witness :
    ∃ k : Nat,
      (torConsts.STREAMWINDOW_START - torConsts.STREAMWINDOW_INCREMENT <
          (connAt 350).deliver_window + k * torConsts.STREAMWINDOW_INCREMENT ∧
        ∀ j : Nat, torConsts.STREAMWINDOW_START - torConsts.STREAMWINDOW_INCREMENT <
          (connAt 350).deliver_window + j * torConsts.STREAMWINDOW_INCREMENT → k ≤ j) ∧
      ∀ fuel : Nat, k < fuel →
        ∃ (conn' : edge_connection_t) (tr : List Event),
          sendme_connection_edge_consider_sending torConsts (liveEnv (fun _ => 0)) (connAt 350)
            fuel = some (conn', tr) ∧
          acks tr = k ∧ attempts tr = k ∧
          conn'.deliver_window = (connAt 350).deliver_window + k * torConsts.STREAMWINDOW_INCREMENT ∧
          torConsts.STREAMWINDOW_START - torConsts.STREAMWINDOW_INCREMENT < conn'.deliver_window ∧
          conn'.deliver_window ≤
            (torConsts.STREAMWINDOW_START - torConsts.STREAMWINDOW_INCREMENT) +
              torConsts.STREAMWINDOW_INCREMENT ∧
          (torConsts.STREAMWINDOW_START - torConsts.STREAMWINDOW_INCREMENT) +
              torConsts.STREAMWINDOW_INCREMENT = torConsts.STREAMWINDOW_START :=
  C1_stream_all_sends_succeed torConsts (liveEnv (fun _ => 0)) (connAt 350) rfl (by decide)
    (by decide) (by decide) (fun _ => Int.le_refl 0)

/-- C2. Circuit regulator, every send succeeding: for every circuit and either
choice of subject window (the aggregate window when `layer_hint` is absent, the
designated hop's window when present), a positive increment and an entry
subject window `w` at or below `CIRCWINDOW_START - CIRCWINDOW_INCREMENT`, the
call returns having emitted exactly `k` acknowledgments, `k` the least natural
number with `w + k * increment > threshold`; the subject window on return is
`w + k * increment`, above the threshold, and one more increment would take it
past `CIRCWINDOW_START`. -/
theorem C2_circuit_all_sends_succeed (K : Consts) (send : Nat → Int) (m : CircMem)
    (layer_hint : Option Nat)
    (hinc : 0 < K.CIRCWINDOW_INCREMENT)
    (hw : subjectWindow m layer_hint ≤ K.CIRCWINDOW_START - K.CIRCWINDOW_INCREMENT)
    (hsend : ∀ j : Nat, 0 ≤ send j) :
    ∃ k : Nat,
      (K.CIRCWINDOW_START - K.CIRCWINDOW_INCREMENT <
          subjectWindow m layer_hint + k * K.CIRCWINDOW_INCREMENT ∧
        ∀ j : Nat, K.CIRCWINDOW_START - K.CIRCWINDOW_INCREMENT <
          subjectWindow m layer_hint + j * K.CIRCWINDOW_INCREMENT → k ≤ j) ∧
      0 < k ∧
      ∀ fuel : Nat, k < fuel →
        ∃ (m' : CircMem) (tr : List Event),
          sendme_circuit_consider_sending K send m layer_hint fuel = some (m', tr) ∧
          acks tr = k ∧ attempts tr = k ∧
          subjectWindow m' layer_hint =
            subjectWindow m layer_hint + k * K.CIRCWINDOW_INCREMENT ∧
          K.CIRCWINDOW_START - K.CIRCWINDOW_INCREMENT < subjectWindow m' layer_hint ∧
          K.CIRCWINDOW_START < subjectWindow m' layer_hint + K.CIRCWINDOW_INCREMENT := by
  have hgt := needed_gt (K.CIRCWINDOW_START - K.CIRCWINDOW_INCREMENT)
    K.CIRCWINDOW_INCREMENT (subjectWindow m layer_hint) hinc
  have hle := needed_le (K.CIRCWINDOW_START - K.CIRCWINDOW_INCREMENT)
    K.CIRCWINDOW_INCREMENT (subjectWindow m layer_hint) hinc
  refine ⟨needed (K.CIRCWINDOW_START - K.CIRCWINDOW_INCREMENT)
    K.CIRCWINDOW_INCREMENT (subjectWindow m layer_hint),
    ⟨hgt, fun j hj => needed_least _ _ _ hinc j hj⟩, needed_pos _ _ _ hinc hw, ?_⟩
  intro fuel hfuel
  have hrun := replenish_all_ok (K.CIRCWINDOW_START - K.CIRCWINDOW_INCREMENT)
    K.CIRCWINDOW_INCREMENT send _ fuel 0 (subjectWindow m layer_hint)
    hle hgt (fun j _ => hsend _) hfuel
  have hobs := acks_circEvents_ok layer_hint send
    (needed (K.CIRCWINDOW_START - K.CIRCWINDOW_INCREMENT)
      K.CIRCWINDOW_INCREMENT (subjectWindow m layer_hint)) (fun j _ => hsend _)
  refine ⟨_, _, by rw [circ_run, hrun]; rfl, hobs.1, hobs.2, ?_, ?_, ?_⟩
  · exact subjectWindow_setSubject _ _ _
  · rw [subjectWindow_setSubject]; exact hgt
  · rw [subjectWindow_setSubject]; dsimp only; linarith

/-- C2 at the quoted constants: the hop at address 2 has window 640, every send
succeeds. -/
theorem C2_circuit_all_sends_succeed_witness :
    ∃ k : Nat,
      (torConsts.CIRCWINDOW_START - torConsts.CIRCWINDOW_INCREMENT <
          subjectWindow (memAt 1000 (fun _ => 640)) (some 2) +
            k * torConsts.CIRCWINDOW_INCREMENT ∧
        ∀ j : Nat, torConsts.CIRCWINDOW_START - torConsts.CIRCWINDOW_INCREMENT <
          subjectWindow (memAt 1000 (fun _ => 640)) (some 2) +
            j * torConsts.CIRCWINDOW_INCREMENT → k ≤ j) ∧
      0 < k ∧
      ∀ fuel : Nat, k < fuel →
        ∃ (m' : CircMem) (tr : List Event),
          sendme_circuit_consider_sending torConsts (fun _ => 0) (memAt 1000 (fun _ => 640))
            (some 2) fuel = some (m', tr) ∧
          acks tr = k ∧ attempts tr = k ∧
          subjectWindow m' (some 2) =
            subjectWindow (memAt 1000 (fun _ => 640)) (some 2) +
              k * torConsts.CIRCWINDOW_INCREMENT ∧
          torConsts.CIRCWINDOW_START - torConsts.CIRCWINDOW_INCREMENT <
            subjectWindow m' (some 2) ∧
          torConsts.CIRCWINDOW_START <
            subjectWindow m' (some 2) + torConsts.CIRCWINDOW_INCREMENT :=
  C2_circuit_all_sends_succeed torConsts (fun _ => 0) (memAt 1000 (fun _ => 640)) (some 2)
    (by decide) (by decide) (fun _ => Int.le_refl 0)

/-- C3, as stated, fails: from a window at `threshold - 2 * increment` (stream
350, circuit 700 at the quoted constants) with every send succeeding the call
emits three acknowledgments, and no run returns with exactly two. -/
theorem C3_two_acks_counterexample :
    (∃ (conn' : edge_connection_t) (tr : List Event),
      sendme_connection_edge_consider_sending torConsts (liveEnv (fun _ => 0)) (connAt 350) 4 =
        some (conn', tr) ∧ acks tr = 3 ∧ conn'.deliver_window = 500) ∧
    (¬ ∃ (fuel : Nat) (conn' : edge_connection_t) (tr : List Event),
      sendme_connection_edge_consider_sending torConsts (liveEnv (fun _ => 0)) (connAt 350) fuel =
        some (conn', tr) ∧ acks tr = 2) ∧
    (∃ (m' : CircMem) (tr : List Event),
      sendme_circuit_consider_sending torConsts (fun _ => 0) (memAt 700 (fun _ => 1000)) none 4 =
        some (m', tr) ∧ acks tr = 3 ∧ m'.circ.deliver_window = 1000) ∧
    (¬ ∃ (fuel : Nat) (m' : CircMem) (tr : List Event),
      sendme_circuit_consider_sending torConsts (fun _ => 0) (memAt 700 (fun _ => 1000)) none fuel =
        some (m', tr) ∧ acks tr = 2) := by
  have he : sendme_connection_edge_consider_sending torConsts (liveEnv (fun _ => 0))
      (connAt 350) 4 = some (connAt 500, edgeEvents LogDomain.LD_APP [0, 0, 0]) := by decide
  have hc : sendme_circuit_consider_sending torConsts (fun _ => 0)
      (memAt 700 (fun _ => 1000)) none 4 =
      some (memAt 1000 (fun _ => 1000), circEvents none [0, 0, 0]) := by rfl
  refine ⟨⟨_, _, he, by decide, by decide⟩, ?_, ⟨_, _, hc, by decide, by decide⟩, ?_⟩
  · rintro ⟨fuel, conn', tr, h, h2⟩
    have := edge_unique _ _ _ _ _ _ _ h he
    simp only [Prod.mk.injEq] at this
    rw [this.2] at h2
    revert h2
    decide
  · rintro ⟨fuel, m', tr, h, h2⟩
    have := circ_unique _ _ _ _ _ _ _ _ h hc
    simp only [Prod.mk.injEq] at this
    rw [this.2] at h2
    revert h2
    decide

/-- C3 (amended). Catch-up burst: for either regulator, when the window is at
`threshold - 2 * increment` on entry (stream: buffer not congested, circuit
present), the increment is positive and every send succeeds, exactly three
acknowledgments are sent in the one call, in the order of the calls, and the
window on return is `threshold + increment`, hence above the threshold and at
most `threshold + increment`. -/
theorem C3_catch_up_burst (K : Consts) :
    (∀ (env : EdgeEnv) (conn : edge_connection_t),
      env.connection_outbuf_too_full = false → env.circuit_get_by_edge_conn ≠ none →
      0 < K.STREAMWINDOW_INCREMENT →
      conn.deliver_window =
        (K.STREAMWINDOW_START - K.STREAMWINDOW_INCREMENT) - 2 * K.STREAMWINDOW_INCREMENT →
      (∀ j : Nat, 0 ≤ env.connection_edge_send_command j) →
      ∀ fuel : Nat, 3 < fuel →
        ∃ (conn' : edge_connection_t) (tr : List Event),
          sendme_connection_edge_consider_sending K env conn fuel = some (conn', tr) ∧
          acks tr = 3 ∧ attempts tr = 3 ∧
          sendResults tr = [env.connection_edge_send_command 0,
            env.connection_edge_send_command 1, env.connection_edge_send_command 2] ∧
          conn'.deliver_window =
            (K.STREAMWINDOW_START - K.STREAMWINDOW_INCREMENT) + K.STREAMWINDOW_INCREMENT ∧
          K.STREAMWINDOW_START - K.STREAMWINDOW_INCREMENT < conn'.deliver_window ∧
          conn'.deliver_window ≤
            (K.STREAMWINDOW_START - K.STREAMWINDOW_INCREMENT) + K.STREAMWINDOW_INCREMENT) ∧
    (∀ (send : Nat → Int) (m : CircMem) (layer_hint : Option Nat),
      0 < K.CIRCWINDOW_INCREMENT →
      subjectWindow m layer_hint =
        (K.CIRCWINDOW_START - K.CIRCWINDOW_INCREMENT) - 2 * K.CIRCWINDOW_INCREMENT →
      (∀ j : Nat, 0 ≤ send j) →
      ∀ fuel : Nat, 3 < fuel →
        ∃ (m' : CircMem) (tr : List Event),
          sendme_circuit_consider_sending K send m layer_hint fuel = some (m', tr) ∧
          acks tr = 3 ∧ attempts tr = 3 ∧
          sendResults tr = [send 0, send 1, send 2] ∧
          subjectWindow m' layer_hint =
            (K.CIRCWINDOW_START - K.CIRCWINDOW_INCREMENT) + K.CIRCWINDOW_INCREMENT ∧
          K.CIRCWINDOW_START - K.CIRCWINDOW_INCREMENT < subjectWindow m' layer_hint ∧
          subjectWindow m' layer_hint ≤
            (K.CIRCWINDOW_START - K.CIRCWINDOW_INCREMENT) + K.CIRCWINDOW_INCREMENT) := by
  constructor
  · intro env conn hcong hcirc hinc hw hsend fuel hfuel
    obtain ⟨conn', tr, hrun, ha, hn, _, _, hres, hwin, _⟩ :=
      edge_ok_run K env conn 3 fuel hcong hcirc
        (fun j hj => by
          have : (j : Int) ≤ 2 := by omega
          rw [hw]; nlinarith)
        (by rw [hw]; push_cast; linarith) (fun j _ => hsend j) hfuel
    have hfin : conn'.deliver_window =
        (K.STREAMWINDOW_START - K.STREAMWINDOW_INCREMENT) + K.STREAMWINDOW_INCREMENT := by
      rw [hwin, hw]; push_cast; ring
    exact ⟨conn', tr, hrun, ha, hn, by simpa [List.range'] using hres, hfin,
      by rw [hfin]; linarith, by rw [hfin]⟩
  · intro send m layer_hint hinc hw hsend fuel hfuel
    obtain ⟨tr, hrun, ha, hn, _, _, hres⟩ :=
      circ_ok_run K send m layer_hint 3 fuel
        (fun j hj => by
          have : (j : Int) ≤ 2 := by omega
          rw [hw]; nlinarith)
        (by rw [hw]; push_cast; linarith) (fun j _ => hsend j) hfuel
    have hfin : subjectWindow (setSubject m layer_hint
        (subjectWindow m layer_hint + (3 : Nat) * K.CIRCWINDOW_INCREMENT)) layer_hint =
        (K.CIRCWINDOW_START - K.CIRCWINDOW_INCREMENT) + K.CIRCWINDOW_INCREMENT := by
      rw [subjectWindow_setSubject, hw]; push_cast; ring
    exact ⟨_, tr, hrun, ha, hn, by simpa [List.range'] using hres, hfin,
      by rw [hfin]; linarith, by rw [hfin]⟩

/-- C3 (amended) at the quoted constants: stream window 350 and circuit window
700, fuel 4. -/
theorem C3_catch_up_burst_witness :
    (∃ (conn' : edge_connection_t) (tr : List Event),
      sendme_connection_edge_consider_sending torConsts (liveEnv (fun _ => 0)) (connAt 350) 4 =
        some (conn', tr) ∧
      acks tr = 3 ∧ attempts tr = 3 ∧
      sendResults tr = [(liveEnv (fun _ => 0)).connection_edge_send_command 0,
        (liveEnv (fun _ => 0)).connection_edge_send_command 1,
        (liveEnv (fun _ => 0)).connection_edge_send_command 2] ∧
      conn'.deliver_window =
        (torConsts.STREAMWINDOW_START - torConsts.STREAMWINDOW_INCREMENT) +
          torConsts.STREAMWINDOW_INCREMENT ∧
      torConsts.STREAMWINDOW_START - torConsts.STREAMWINDOW_INCREMENT < conn'.deliver_window ∧
      conn'.deliver_window ≤
        (torConsts.STREAMWINDOW_START - torConsts.STREAMWINDOW_INCREMENT) +
          torConsts.STREAMWINDOW_INCREMENT) ∧
    (∃ (m' : CircMem) (tr : List Event),
      sendme_circuit_consider_sending torConsts (fun _ => 0) (memAt 700 (fun _ => 1000)) none 4 =
        some (m', tr) ∧
      acks tr = 3 ∧ attempts tr = 3 ∧
      sendResults tr = [(0 : Int), 0, 0] ∧
      subjectWindow m' none =
        (torConsts.CIRCWINDOW_START - torConsts.CIRCWINDOW_INCREMENT) +
          torConsts.CIRCWINDOW_INCREMENT ∧
      torConsts.CIRCWINDOW_START - torConsts.CIRCWINDOW_INCREMENT < subjectWindow m' none ∧
      subjectWindow m' none ≤
        (torConsts.CIRCWINDOW_START - torConsts.CIRCWINDOW_INCREMENT) +
          torConsts.CIRCWINDOW_INCREMENT) :=
  ⟨(C3_catch_up_burst torConsts).1 (liveEnv (fun _ => 0)) (connAt 350) rfl (by decide)
      (by decide) (by decide) (fun _ => Int.le_refl 0) 4 (by decide),
    (C3_catch_up_burst torConsts).2 (fun _ => 0) (memAt 700 (fun _ => 1000)) none
      (by decide) (by decide) (fun _ => Int.le_refl 0) 4 (by decide)⟩

/-- C4, as stated, fails: with window 400 (stream) or 800 (circuit) at the
quoted constants, first send succeeding and second send failing, the window
has been raised twice on return (to 500, to 1000) and no run returns with the
window raised once only. -/
theorem C4_one_increment_counterexample :
    (∃ (conn' : edge_connection_t) (tr : List Event),
      sendme_connection_edge_consider_sending torConsts (liveEnv (failAt 1)) (connAt 400) 2 =
        some (conn', tr) ∧ sendResults tr = [0, -1] ∧
      conn'.deliver_window = 400 + 2 * torConsts.STREAMWINDOW_INCREMENT) ∧
    (¬ ∃ (fuel : Nat) (conn' : edge_connection_t) (tr : List Event),
      sendme_connection_edge_consider_sending torConsts (liveEnv (failAt 1)) (connAt 400) fuel =
        some (conn', tr) ∧
      conn'.deliver_window = 400 + 1 * torConsts.STREAMWINDOW_INCREMENT) ∧
    (∃ (m' : CircMem) (tr : List Event),
      sendme_circuit_consider_sending torConsts (failAt 1) (memAt 800 (fun _ => 1000)) none 2 =
        some (m', tr) ∧ sendResults tr = [0, -1] ∧
      m'.circ.deliver_window = 800 + 2 * torConsts.CIRCWINDOW_INCREMENT) ∧
    (¬ ∃ (fuel : Nat) (m' : CircMem) (tr : List Event),
      sendme_circuit_consider_sending torConsts (failAt 1) (memAt 800 (fun _ => 1000)) none fuel =
        some (m', tr) ∧
      m'.circ.deliver_window = 800 + 1 * torConsts.CIRCWINDOW_INCREMENT) := by
  have he : sendme_connection_edge_consider_sending torConsts (liveEnv (failAt 1))
      (connAt 400) 2 = some (connAt 500, edgeEvents LogDomain.LD_APP [0, -1]) := by decide
  have hc : sendme_circuit_consider_sending torConsts (failAt 1)
      (memAt 800 (fun _ => 1000)) none 2 =
      some (memAt 1000 (fun _ => 1000), circEvents none [0, -1]) := by rfl
  refine ⟨⟨_, _, he, by decide, by decide⟩, ?_, ⟨_, _, hc, by decide, by decide⟩, ?_⟩
  · rintro ⟨fuel, conn', tr, h, h2⟩
    have := edge_unique _ _ _ _ _ _ _ h he
    simp only [Prod.mk.injEq] at this
    rw [this.1] at h2
    revert h2
    decide
  · rintro ⟨fuel, m', tr, h, h2⟩
    have := circ_unique _ _ _ _ _ _ _ _ h hc
    simp only [Prod.mk.injEq] at this
    rw [this.1] at h2
    revert h2
    decide

/-- C4 (amended). Mid-loop send failure: for either regulator, when the entry
window `w` needs two replenishments
(`threshold - 2 * increment < w <= threshold - increment`), the first send
succeeds and the second fails, the call returns after exactly two send
attempts, the failed one last, with one acknowledgment emitted and exactly one
warning logged; the window has been raised twice, once for each attempt
including the failed one, so it is `w + 2 * increment` on return. -/
theorem C4_mid_loop_send_failure (K : Consts) :
    (∀ (env : EdgeEnv) (conn : edge_connection_t),
      env.connection_outbuf_too_full = false → env.circuit_get_by_edge_conn ≠ none →
      (K.STREAMWINDOW_START - K.STREAMWINDOW_INCREMENT) - 2 * K.STREAMWINDOW_INCREMENT <
        conn.deliver_window →
      conn.deliver_window ≤
        (K.STREAMWINDOW_START - K.STREAMWINDOW_INCREMENT) - K.STREAMWINDOW_INCREMENT →
      0 ≤ env.connection_edge_send_command 0 → env.connection_edge_send_command 1 < 0 →
      ∀ fuel : Nat, 1 < fuel →
        ∃ (conn' : edge_connection_t) (tr : List Event),
          sendme_connection_edge_consider_sending K env conn fuel = some (conn', tr) ∧
          sendResults tr =
            [env.connection_edge_send_command 0, env.connection_edge_send_command 1] ∧
          attempts tr = 2 ∧ acks tr = 1 ∧ failures tr = 1 ∧
          logCount Severity.warn tr = 1 ∧
          conn'.deliver_window = conn.deliver_window + 2 * K.STREAMWINDOW_INCREMENT) ∧
    (∀ (send : Nat → Int) (m : CircMem) (layer_hint : Option Nat),
      (K.CIRCWINDOW_START - K.CIRCWINDOW_INCREMENT) - 2 * K.CIRCWINDOW_INCREMENT <
        subjectWindow m layer_hint →
      subjectWindow m layer_hint ≤
        (K.CIRCWINDOW_START - K.CIRCWINDOW_INCREMENT) - K.CIRCWINDOW_INCREMENT →
      0 ≤ send 0 → send 1 < 0 →
      ∀ fuel : Nat, 1 < fuel →
        ∃ (m' : CircMem) (tr : List Event),
          sendme_circuit_consider_sending K send m layer_hint fuel = some (m', tr) ∧
          sendResults tr = [send 0, send 1] ∧
          attempts tr = 2 ∧ acks tr = 1 ∧ failures tr = 1 ∧
          logCount Severity.warn tr = 1 ∧
          subjectWindow m' layer_hint =
            subjectWindow m layer_hint + 2 * K.CIRCWINDOW_INCREMENT) := by
  constructor
  · intro env conn hcong hcirc hlo hhi h0 h1 fuel hfuel
    obtain ⟨conn', tr, hrun, ha, hn, hfl, hwarn, hres, hwin, _⟩ :=
      edge_fail_run K env conn 1 fuel hcong hcirc
        (fun j hj => by
          have h : j = 0 ∨ j = 1 := by omega
          rcases h with rfl | rfl
          · simp; linarith
          · simp; linarith)
        (fun j hj => by
          obtain rfl : j = 0 := by omega
          exact h0)
        h1 hfuel
    exact ⟨conn', tr, hrun, by simpa [List.range'] using hres, hn, ha, hfl, hwarn,
      by rw [hwin]; push_cast; ring⟩
  · intro send m layer_hint hlo hhi h0 h1 fuel hfuel
    obtain ⟨tr, hrun, ha, hn, hfl, hwarn, hres⟩ :=
      circ_fail_run K send m layer_hint 1 fuel
        (fun j hj => by
          have h : j = 0 ∨ j = 1 := by omega
          rcases h with rfl | rfl
          · simp; linarith
          · simp; linarith)
        (fun j hj => by
          obtain rfl : j = 0 := by omega
          exact h0)
        h1 hfuel
    exact ⟨_, tr, hrun, by simpa [List.range'] using hres, hn, ha, hfl, hwarn,
      by rw [subjectWindow_setSubject]; push_cast; ring⟩

/-- C4 (amended) at the quoted constants: stream window 400 and circuit window
800, second send failing, fuel 2. -/
theorem C4_mid_loop_send_failure_witness :
    (∃ (conn' : edge_connection_t) (tr : List Event),
      sendme_connection_edge_consider_sending torConsts (liveEnv (failAt 1)) (connAt 400) 2 =
        some (conn', tr) ∧
      sendResults tr = [(liveEnv (failAt 1)).connection_edge_send_command 0,
        (liveEnv (failAt 1)).connection_edge_send_command 1] ∧
      attempts tr = 2 ∧ acks tr = 1 ∧ failures tr = 1 ∧
      logCount Severity.warn tr = 1 ∧
      conn'.deliver_window =
        (connAt 400).deliver_window + 2 * torConsts.STREAMWINDOW_INCREMENT) ∧
    (∃ (m' : CircMem) (tr : List Event),
      sendme_circuit_consider_sending torConsts (failAt 1) (memAt 1000 (fun _ => 800)) (some 1) 2 =
        some (m', tr) ∧
      sendResults tr = [failAt 1 0, failAt 1 1] ∧
      attempts tr = 2 ∧ acks tr = 1 ∧ failures tr = 1 ∧
      logCount Severity.warn tr = 1 ∧
      subjectWindow m' (some 1) =
        subjectWindow (memAt 1000 (fun _ => 800)) (some 1) +
          2 * torConsts.CIRCWINDOW_INCREMENT) :=
  ⟨(C4_mid_loop_send_failure torConsts).1 (liveEnv (failAt 1)) (connAt 400) rfl (by decide)
      (by decide) (by decide) (by decide) (by decide) 2 (by decide),
    (C4_mid_loop_send_failure torConsts).2 (failAt 1) (memAt 1000 (fun _ => 800)) (some 1)
      (by decide) (by decide) (by decide) (by decide) 2 (by decide)⟩

/-- C5. Backpressure suppression: when the endpoint's output buffer is
congested, for every window value and whether or not a circuit is present, the
call returns at once (with any fuel) with the endpoint unchanged and an empty
trace: no acknowledgment, no call of the send primitive, no log line. -/
theorem C5_backpressure_suppression (K : Consts) (env : EdgeEnv) (conn : edge_connection_t)
    (fuel : Nat) (hcong : env.connection_outbuf_too_full = true) :
    ∃ tr : List Event,
      sendme_connection_edge_consider_sending K env conn fuel = some (conn, tr) ∧
      acks tr = 0 ∧ attempts tr = 0 ∧ tr = [] := by
  refine ⟨[], ?_, rfl, rfl, rfl⟩
  simp [sendme_connection_edge_consider_sending, hcong]

/-- C5 at the quoted constants: a congested endpoint at window
`threshold - increment = 400`, with and without a circuit. -/
theorem C5_backpressure_suppression_witness :
    (∃ tr : List Event,
      sendme_connection_edge_consider_sending torConsts
        { connection_outbuf_too_full := true, circuit_get_by_edge_conn := some 1,
          connection_edge_send_command := fun _ => 0 } (connAt 400) 0 = some (connAt 400, tr) ∧
      acks tr = 0 ∧ attempts tr = 0 ∧ tr = []) ∧
    (∃ tr : List Event,
      sendme_connection_edge_consider_sending torConsts
        { connection_outbuf_too_full := true, circuit_get_by_edge_conn := none,
          connection_edge_send_command := fun _ => 0 } (connAt 400) 0 = some (connAt 400, tr) ∧
      acks tr = 0 ∧ attempts tr = 0 ∧ tr = []) :=
  ⟨C5_backpressure_suppression torConsts _ (connAt 400) 0 rfl,
    C5_backpressure_suppression torConsts _ (connAt 400) 0 rfl⟩

/-- C6, as stated, fails: an endpoint without a circuit whose output buffer is
congested produces no log entry at all, with whatever fuel. -/
theorem C6_one_info_log_counterexample :
    sendme_connection_edge_consider_sending torConsts
        { connection_outbuf_too_full := true, circuit_get_by_edge_conn := none,
          connection_edge_send_command := fun _ => 0 } (connAt 400) 1 = some (connAt 400, []) ∧
    logCount Severity.info ([] : List Event) = 0 ∧
    ¬ ∃ (fuel : Nat) (conn' : edge_connection_t) (tr : List Event),
      sendme_connection_edge_consider_sending torConsts
        { connection_outbuf_too_full := true, circuit_get_by_edge_conn := none,
          connection_edge_send_command := fun _ => 0 } (connAt 400) fuel = some (conn', tr) ∧
      logCount Severity.info tr = 1 := by
  refine ⟨by decide, by decide, ?_⟩
  rintro ⟨fuel, conn', tr, h, h2⟩
  simp only [sendme_connection_edge_consider_sending, if_true, Option.some.injEq,
    Prod.mk.injEq] at h
  rw [← h.2] at h2
  revert h2
  decide

/-- C6 (amended). Torn-down circuit: for every endpoint whose circuit reference
is absent the call returns (with any fuel) with the endpoint unchanged, no
acknowledgment and no call of the send primitive; it emits exactly one
informational log entry when the output buffer is not congested and no log
entry when it is congested, the congestion test coming first. -/
theorem C6_torn_down_circuit (K : Consts) (env : EdgeEnv) (conn : edge_connection_t)
    (fuel : Nat) (hcirc : env.circuit_get_by_edge_conn = none) :
    ∃ tr : List Event,
      sendme_connection_edge_consider_sending K env conn fuel = some (conn, tr) ∧
      acks tr = 0 ∧ attempts tr = 0 ∧ logCount Severity.warn tr = 0 ∧
      logCount Severity.info tr = (if env.connection_outbuf_too_full then 0 else 1) ∧
      tr.length = (if env.connection_outbuf_too_full then 0 else 1) := by
  cases hc : env.connection_outbuf_too_full with
  | true =>
    exact ⟨[], by simp [sendme_connection_edge_consider_sending, hc], rfl, rfl, rfl, rfl, rfl⟩
  | false =>
    refine ⟨[Event.log Severity.info
      (if conn.base_.type = ConnType.CONN_TYPE_AP then LogDomain.LD_APP else LogDomain.LD_EXIT)],
      by simp [sendme_connection_edge_consider_sending, hc, hcirc], rfl, rfl, ?_, ?_, rfl⟩
    · simp [logCount]
    · simp [logCount]

/-- C6 (amended) at the quoted constants: an uncongested endpoint without a
circuit logs once. -/
theorem C6_torn_down_circuit_witness :
    ∃ tr : List Event,
      sendme_connection_edge_consider_sending torConsts
        { connection_outbuf_too_full := false, circuit_get_by_edge_conn := none,
          connection_edge_send_command := fun _ => 0 } (connAt 400) 0 = some (connAt 400, tr) ∧
      acks tr = 0 ∧ attempts tr = 0 ∧ logCount Severity.warn tr = 0 ∧
      logCount Severity.info tr = (if false then 0 else 1) ∧
      tr.length = (if false then 0 else 1) :=
  C6_torn_down_circuit torConsts
    { connection_outbuf_too_full := false, circuit_get_by_edge_conn := none,
      connection_edge_send_command := fun _ => 0 } (connAt 400) 0 rfl

/-- C7, as stated, fails in its last sentence: a call on a circuit whose
subject window is above the threshold (aggregate window 1000 at the quoted
constants) mutates neither kind of window, so it is not the case that exactly
one kind is mutated by every invocation. -/
theorem C7_exactly_one_counterexample :
    (∃ (m' : CircMem) (tr : List Event),
      sendme_circuit_consider_sending torConsts (fun _ => 0) (memAt 1000 (fun _ => 1000)) none 1 =
        some (m', tr) ∧
      ¬ aggregateMutated (memAt 1000 (fun _ => 1000)) m' ∧
      ¬ layerMutated (memAt 1000 (fun _ => 1000)) m') ∧
    ¬ ∃ (fuel : Nat) (m' : CircMem) (tr : List Event),
      sendme_circuit_consider_sending torConsts (fun _ => 0) (memAt 1000 (fun _ => 1000)) none
        fuel = some (m', tr) ∧
      (aggregateMutated (memAt 1000 (fun _ => 1000)) m' ∨
        layerMutated (memAt 1000 (fun _ => 1000)) m') := by
  have hc : sendme_circuit_consider_sending torConsts (fun _ => 0)
      (memAt 1000 (fun _ => 1000)) none 1 = some (memAt 1000 (fun _ => 1000), []) := by rfl
  have hagg : ¬ aggregateMutated (memAt 1000 (fun _ => 1000)) (memAt 1000 (fun _ => 1000)) :=
    fun hne => hne rfl
  have hlay : ¬ layerMutated (memAt 1000 (fun _ => 1000)) (memAt 1000 (fun _ => 1000)) :=
    fun ⟨_, hne⟩ => hne rfl
  refine ⟨⟨_, _, hc, hagg, hlay⟩, ?_⟩
  rintro ⟨fuel, m', tr, h, h2⟩
  have := circ_unique _ _ _ _ _ _ _ _ h hc
  simp only [Prod.mk.injEq] at this
  rw [this.1] at h2
  exact h2.elim hagg hlay

/-- C7 (amended). Per-hop isolation: for every circuit, every sequence of send
results and every designated hop `L`, a returning call leaves the circuit's
aggregate window and the window of every other hop as they were; when no hop
is designated it leaves every hop window as it was.  At most one of the two
kinds of window is mutated by an invocation, never both; when the subject
window is at or below the threshold on entry and the increment is positive,
exactly one is, namely the subject window; when the subject window is above
the threshold on entry none is: the call returns, with any positive fuel, the
memory it received and an empty trace.  In every case the subject window on
return is the entry value plus one increment for each send attempt, so nothing
else is ever added to it.  With a positive increment the call returns for every
fuel above the number of replenishments needed. -/
theorem C7_per_hop_isolation (K : Consts) (send : Nat → Int) (m : CircMem) :
    (∀ (L fuel : Nat) (m' : CircMem) (tr : List Event),
      sendme_circuit_consider_sending K send m (some L) fuel = some (m', tr) →
      m'.circ = m.circ ∧ ∀ L' : Nat, L' ≠ L → m'.cpath L' = m.cpath L') ∧
    (∀ (fuel : Nat) (m' : CircMem) (tr : List Event),
      sendme_circuit_consider_sending K send m none fuel = some (m', tr) →
      ∀ L : Nat, m'.cpath L = m.cpath L) ∧
    (∀ (layer_hint : Option Nat) (fuel : Nat) (m' : CircMem) (tr : List Event),
      sendme_circuit_consider_sending K send m layer_hint fuel = some (m', tr) →
      ¬ (aggregateMutated m m' ∧ layerMutated m m')) ∧
    (∀ (layer_hint : Option Nat) (fuel : Nat) (m' : CircMem) (tr : List Event),
      sendme_circuit_consider_sending K send m layer_hint fuel = some (m', tr) →
      0 < K.CIRCWINDOW_INCREMENT →
      subjectWindow m layer_hint ≤ K.CIRCWINDOW_START - K.CIRCWINDOW_INCREMENT →
      subjectWindow m' layer_hint ≠ subjectWindow m layer_hint ∧
      (layer_hint = none → aggregateMutated m m' ∧ ¬ layerMutated m m') ∧
      (layer_hint ≠ none → layerMutated m m' ∧ ¬ aggregateMutated m m')) ∧
    (0 < K.CIRCWINDOW_INCREMENT → ∀ (layer_hint : Option Nat) (fuel : Nat),
      needed (K.CIRCWINDOW_START - K.CIRCWINDOW_INCREMENT) K.CIRCWINDOW_INCREMENT
        (subjectWindow m layer_hint) < fuel →
      (sendme_circuit_consider_sending K send m layer_hint fuel).isSome = true) ∧
    (∀ (layer_hint : Option Nat) (fuel : Nat) (m' : CircMem) (tr : List Event),
      sendme_circuit_consider_sending K send m layer_hint fuel = some (m', tr) →
      K.CIRCWINDOW_START - K.CIRCWINDOW_INCREMENT < subjectWindow m layer_hint →
      m' = m ∧ tr = [] ∧ ¬ aggregateMutated m m' ∧ ¬ layerMutated m m') ∧
    (∀ layer_hint : Option Nat,
      K.CIRCWINDOW_START - K.CIRCWINDOW_INCREMENT < subjectWindow m layer_hint →
      ∀ fuel : Nat, 0 < fuel →
        sendme_circuit_consider_sending K send m layer_hint fuel = some (m, [])) ∧
    (∀ (layer_hint : Option Nat) (fuel : Nat) (m' : CircMem) (tr : List Event),
      sendme_circuit_consider_sending K send m layer_hint fuel = some (m', tr) →
      subjectWindow m' layer_hint =
        subjectWindow m layer_hint + (attempts tr : Int) * K.CIRCWINDOW_INCREMENT ∧
      (layer_hint = none → m'.circ.deliver_window =
        m.circ.deliver_window + (attempts tr : Int) * K.CIRCWINDOW_INCREMENT) ∧
      (∀ L : Nat, layer_hint = some L → (m'.cpath L).deliver_window =
        (m.cpath L).deliver_window + (attempts tr : Int) * K.CIRCWINDOW_INCREMENT)) := by
  have frameSome : ∀ (L fuel : Nat) (m' : CircMem) (tr : List Event),
      sendme_circuit_consider_sending K send m (some L) fuel = some (m', tr) →
      m'.circ = m.circ ∧ ∀ L' : Nat, L' ≠ L → m'.cpath L' = m.cpath L' := by
    intro L fuel m' tr hrun
    obtain ⟨w', rs, _, rfl, _⟩ := circ_result_shape K send m (some L) fuel m' tr hrun
    exact ⟨rfl, fun L' hne => by simp [setSubject, Function.update, hne]⟩
  have frameNone : ∀ (fuel : Nat) (m' : CircMem) (tr : List Event),
      sendme_circuit_consider_sending K send m none fuel = some (m', tr) →
      ∀ L : Nat, m'.cpath L = m.cpath L := by
    intro fuel m' tr hrun L
    obtain ⟨w', rs, _, rfl, _⟩ := circ_result_shape K send m none fuel m' tr hrun
    rfl
  refine ⟨frameSome, frameNone, ?_, ?_, ?_, ?_, ?_, ?_⟩
  · intro layer_hint fuel m' tr hrun hboth
    cases layer_hint with
    | none =>
      obtain ⟨l, hl⟩ := hboth.2
      exact hl (by rw [frameNone fuel m' tr hrun l])
    | some L => exact hboth.1 (by rw [(frameSome L fuel m' tr hrun).1])
  · intro layer_hint fuel m' tr hrun hinc hw
    obtain ⟨w', rs, hrep, hm', _⟩ := circ_result_shape K send m layer_hint fuel m' tr hrun
    obtain ⟨k, _, hw', _, _, hend⟩ := replenish_sound _ _ _ _ _ _ _ _ hrep
    have hne : subjectWindow m' layer_hint ≠ subjectWindow m layer_hint := by
      rw [hm', subjectWindow_setSubject, hw']
      rcases hend with ⟨k', rfl, _⟩ | ⟨_, hgt⟩
      · push_cast
        nlinarith
      · rw [hw'] at hgt
        intro heq
        rw [heq] at hgt
        omega
    refine ⟨hne, ?_, ?_⟩
    · intro hnone
      subst hnone
      exact ⟨hne, fun ⟨l, hl⟩ => hl (by rw [frameNone fuel m' tr hrun l])⟩
    · intro hsome
      cases layer_hint with
      | none => exact absurd rfl hsome
      | some L =>
        exact ⟨⟨L, hne⟩, fun hagg => hagg (by rw [(frameSome L fuel m' tr hrun).1])⟩
  · intro hinc layer_hint fuel hfuel
    rw [circ_run, Option.isSome_map']
    exact replenish_isSome _ _ _ fuel _ 0 _ (needed_gt _ _ _ hinc) hfuel
  · intro layer_hint fuel m' tr hrun hgt
    obtain ⟨k, _, _, hm', htr, hle, _⟩ := circ_run_sound K send m layer_hint fuel m' tr hrun
    have hk : k = 0 := by
      by_contra hne
      have := hle 0 (by omega)
      simp at this
      omega
    subst hk
    have hmm : m' = m := by
      rw [hm']
      simp [setSubject_self]
    have htr' : tr = [] := by rw [htr]; rfl
    subst hmm
    exact ⟨rfl, htr', fun hne => hne rfl, fun ⟨_, hne⟩ => hne rfl⟩
  · intro layer_hint hgt fuel hfuel
    obtain ⟨f, rfl⟩ : ∃ f, fuel = f + 1 := ⟨fuel - 1, by omega⟩
    have hw' : ¬ subjectWindow m layer_hint ≤ K.CIRCWINDOW_START - K.CIRCWINDOW_INCREMENT :=
      not_le.2 hgt
    simp [sendme_circuit_consider_sending, circ_loop, hw']
  · intro layer_hint fuel m' tr hrun
    obtain ⟨k, hk, _, hm', _, _, _⟩ := circ_run_sound K send m layer_hint fuel m' tr hrun
    have hsub : subjectWindow m' layer_hint =
        subjectWindow m layer_hint + (attempts tr : Int) * K.CIRCWINDOW_INCREMENT := by
      rw [hm', subjectWindow_setSubject, hk]
    refine ⟨hsub, ?_, ?_⟩
    · intro hnone
      subst hnone
      exact hsub
    · intro L hL
      subst hL
      exact hsub

/-- C7 (amended) at the quoted constants: hop 1 at window 800 is designated,
the second send fails; the aggregate window 1000 and hop 0 are untouched and
hop 1 has gained one increment for each of the two attempts.  A call
designating hop 3 at window 901, above the threshold, returns the memory as it
was, hop 3 included, with an empty trace. -/
theorem C7_per_hop_isolation_witness :
    (∃ (m' : CircMem) (tr : List Event),
      sendme_circuit_consider_sending torConsts (failAt 1) (memAt 1000 (fun _ => 800)) (some 1) 2 =
        some (m', tr) ∧
      m'.circ = (memAt 1000 (fun _ => 800)).circ ∧
      m'.cpath 0 = (memAt 1000 (fun _ => 800)).cpath 0 ∧
      (m'.cpath 1).deliver_window = 1000 ∧
      attempts tr = 2 ∧
      (m'.cpath 1).deliver_window =
        ((memAt 1000 (fun _ => 800)).cpath 1).deliver_window +
          (attempts tr : Int) * torConsts.CIRCWINDOW_INCREMENT) ∧
    sendme_circuit_consider_sending torConsts (fun _ => 0) (memAt 100 (fun _ => 901)) (some 3) 1 =
      some (memAt 100 (fun _ => 901), []) ∧
    (∃ (m' : CircMem) (tr : List Event),
      sendme_circuit_consider_sending torConsts (fun _ => 0) (memAt 100 (fun _ => 901)) (some 3) 7 =
        some (m', tr) ∧
      m' = memAt 100 (fun _ => 901) ∧ tr = [] ∧ (m'.cpath 3).deliver_window = 901 ∧
      ¬ aggregateMutated (memAt 100 (fun _ => 901)) m' ∧
      ¬ layerMutated (memAt 100 (fun _ => 901)) m') :=
  ⟨⟨_, _, rfl,
      ((C7_per_hop_isolation torConsts (failAt 1) (memAt 1000 (fun _ => 800))).1 1 2 _ _ rfl).1,
      ((C7_per_hop_isolation torConsts (failAt 1) (memAt 1000 (fun _ => 800))).1 1 2 _ _ rfl).2 0
        (by decide),
      by decide, by decide,
      ((C7_per_hop_isolation torConsts (failAt 1) (memAt 1000 (fun _ => 800))).2.2.2.2.2.2.2
        (some 1) 2 _ _ rfl).2.2 1 rfl⟩,
    (C7_per_hop_isolation torConsts (fun _ => 0) (memAt 100 (fun _ => 901))).2.2.2.2.2.2.1
      (some 3) (by decide) 1 (by decide),
    ⟨_, _, rfl,
      ((C7_per_hop_isolation torConsts (fun _ => 0) (memAt 100 (fun _ => 901))).2.2.2.2.2.1
        (some 3) 7 _ _ rfl (by decide)).1,
      ((C7_per_hop_isolation torConsts (fun _ => 0) (memAt 100 (fun _ => 901))).2.2.2.2.2.1
        (some 3) 7 _ _ rfl (by decide)).2.1,
      by decide,
      ((C7_per_hop_isolation torConsts (fun _ => 0) (memAt 100 (fun _ => 901))).2.2.2.2.2.1
        (some 3) 7 _ _ rfl (by decide)).2.2.1,
      ((C7_per_hop_isolation torConsts (fun _ => 0) (memAt 100 (fun _ => 901))).2.2.2.2.2.1
        (some 3) 7 _ _ rfl (by decide)).2.2.2⟩⟩

/-- C8. No-op above threshold: for either regulator, if the subject window is
already above the threshold on entry, the call returns (with any positive fuel)
having sent no acknowledgment and made no call of the send primitive, and every
window is as it was; for the stream regulator this holds whatever the
congestion state and whether or not a circuit is present. -/
theorem C8_noop_above_threshold (K : Consts) :
    (∀ (env : EdgeEnv) (conn : edge_connection_t),
      K.STREAMWINDOW_START - K.STREAMWINDOW_INCREMENT < conn.deliver_window →
      ∀ fuel : Nat, 0 < fuel →
        ∃ tr : List Event,
          sendme_connection_edge_consider_sending K env conn fuel = some (conn, tr) ∧
          acks tr = 0 ∧ attempts tr = 0) ∧
    (∀ (send : Nat → Int) (m : CircMem) (layer_hint : Option Nat),
      K.CIRCWINDOW_START - K.CIRCWINDOW_INCREMENT < subjectWindow m layer_hint →
      ∀ fuel : Nat, 0 < fuel →
        sendme_circuit_consider_sending K send m layer_hint fuel = some (m, [])) := by
  constructor
  · intro env conn hw fuel hfuel
    obtain ⟨f, rfl⟩ : ∃ f, fuel = f + 1 := ⟨fuel - 1, by omega⟩
    have hw' : ¬ conn.deliver_window ≤ K.STREAMWINDOW_START - K.STREAMWINDOW_INCREMENT :=
      not_le.2 hw
    cases hc : env.connection_outbuf_too_full with
    | true =>
      exact ⟨[], by simp [sendme_connection_edge_consider_sending, hc], rfl, rfl⟩
    | false =>
      by_cases hn : env.circuit_get_by_edge_conn = none
      · exact ⟨[Event.log Severity.info (if conn.base_.type = ConnType.CONN_TYPE_AP then
            LogDomain.LD_APP else LogDomain.LD_EXIT)],
          by simp [sendme_connection_edge_consider_sending, hc, hn], rfl, rfl⟩
      · exact ⟨[], by simp [sendme_connection_edge_consider_sending, hc, hn, edge_loop, hw'],
          rfl, rfl⟩
  · intro send m layer_hint hw fuel hfuel
    obtain ⟨f, rfl⟩ : ∃ f, fuel = f + 1 := ⟨fuel - 1, by omega⟩
    have hw' : ¬ subjectWindow m layer_hint ≤ K.CIRCWINDOW_START - K.CIRCWINDOW_INCREMENT :=
      not_le.2 hw
    simp [sendme_circuit_consider_sending, circ_loop, hw']

/-- C8 at the quoted constants: a congested endpoint at window 451 and a
circuit whose designated hop is at window 901. -/
theorem C8_noop_above_threshold_witness :
    (∃ tr : List Event,
      sendme_connection_edge_consider_sending torConsts
        { connection_outbuf_too_full := true, circuit_get_by_edge_conn := some 1,
          connection_edge_send_command := fun _ => 0 } (connAt 451) 1 = some (connAt 451, tr) ∧
      acks tr = 0 ∧ attempts tr = 0) ∧
    sendme_circuit_consider_sending torConsts (fun _ => 0) (memAt 100 (fun _ => 901)) (some 3) 1 =
      some (memAt 100 (fun _ => 901), []) :=
  ⟨(C8_noop_above_threshold torConsts).1 _ (connAt 451) (by decide) 1 (by decide),
    (C8_noop_above_threshold torConsts).2 (fun _ => 0) (memAt 100 (fun _ => 901)) (some 3)
      (by decide) 1 (by decide)⟩

/-- C9. Single replenishment: for either regulator, for every entry window `w`
with `threshold - increment < w <= threshold` (stream: buffer not congested,
circuit present), when the send succeeds the call returns having sent exactly
one acknowledgment and the window is `w + increment`; in particular a window
exactly at the threshold becomes `threshold + increment`, which is the start
value. -/
theorem C9_single_replenishment (K : Consts) :
    (∀ (env : EdgeEnv) (conn : edge_connection_t),
      env.connection_outbuf_too_full = false → env.circuit_get_by_edge_conn ≠ none →
      (K.STREAMWINDOW_START - K.STREAMWINDOW_INCREMENT) - K.STREAMWINDOW_INCREMENT <
        conn.deliver_window →
      conn.deliver_window ≤ K.STREAMWINDOW_START - K.STREAMWINDOW_INCREMENT →
      0 ≤ env.connection_edge_send_command 0 →
      ∀ fuel : Nat, 1 < fuel →
        ∃ (conn' : edge_connection_t) (tr : List Event),
          sendme_connection_edge_consider_sending K env conn fuel = some (conn', tr) ∧
          acks tr = 1 ∧ attempts tr = 1 ∧
          conn'.deliver_window = conn.deliver_window + K.STREAMWINDOW_INCREMENT ∧
          (conn.deliver_window = K.STREAMWINDOW_START - K.STREAMWINDOW_INCREMENT →
            conn'.deliver_window = K.STREAMWINDOW_START)) ∧
    (∀ (send : Nat → Int) (m : CircMem) (layer_hint : Option Nat),
      (K.CIRCWINDOW_START - K.CIRCWINDOW_INCREMENT) - K.CIRCWINDOW_INCREMENT <
        subjectWindow m layer_hint →
      subjectWindow m layer_hint ≤ K.CIRCWINDOW_START - K.CIRCWINDOW_INCREMENT →
      0 ≤ send 0 →
      ∀ fuel : Nat, 1 < fuel →
        ∃ (m' : CircMem) (tr : List Event),
          sendme_circuit_consider_sending K send m layer_hint fuel = some (m', tr) ∧
          acks tr = 1 ∧ attempts tr = 1 ∧
          subjectWindow m' layer_hint = subjectWindow m layer_hint + K.CIRCWINDOW_INCREMENT ∧
          (subjectWindow m layer_hint = K.CIRCWINDOW_START - K.CIRCWINDOW_INCREMENT →
            subjectWindow m' layer_hint = K.CIRCWINDOW_START)) := by
  constructor
  · intro env conn hcong hcirc hlo hhi h0 fuel hfuel
    obtain ⟨conn', tr, hrun, ha, hn, _, _, _, hwin, _⟩ :=
      edge_ok_run K env conn 1 fuel hcong hcirc
        (fun j hj => by
          obtain rfl : j = 0 := by omega
          simpa using hhi)
        (by push_cast; linarith)
        (fun j hj => by
          obtain rfl : j = 0 := by omega
          exact h0)
        hfuel
    have hfin : conn'.deliver_window = conn.deliver_window + K.STREAMWINDOW_INCREMENT := by
      rw [hwin]; push_cast; ring
    exact ⟨conn', tr, hrun, ha, hn, hfin, fun heq => by rw [hfin, heq]; ring⟩
  · intro send m layer_hint hlo hhi h0 fuel hfuel
    obtain ⟨tr, hrun, ha, hn, _, _, _⟩ :=
      circ_ok_run K send m layer_hint 1 fuel
        (fun j hj => by
          obtain rfl : j = 0 := by omega
          simpa using hhi)
        (by push_cast; linarith)
        (fun j hj => by
          obtain rfl : j = 0 := by omega
          exact h0)
        hfuel
    have hfin : subjectWindow (setSubject m layer_hint
        (subjectWindow m layer_hint + (1 : Nat) * K.CIRCWINDOW_INCREMENT)) layer_hint =
        subjectWindow m layer_hint + K.CIRCWINDOW_INCREMENT := by
      rw [subjectWindow_setSubject]; push_cast; ring
    exact ⟨_, tr, hrun, ha, hn, hfin, fun heq => by rw [hfin, heq]; ring⟩

/-- C9 at the quoted constants: stream window 450 and aggregate circuit window
900, both exactly at the threshold, fuel 2. -/
theorem C9_single_replenishment_witness :
    (∃ (conn' : edge_connection_t) (tr : List Event),
      sendme_connection_edge_consider_sending torConsts (liveEnv (fun _ => 0)) (connAt 450) 2 =
        some (conn', tr) ∧
      acks tr = 1 ∧ attempts tr = 1 ∧
      conn'.deliver_window = (connAt 450).deliver_window + torConsts.STREAMWINDOW_INCREMENT ∧
      ((connAt 450).deliver_window =
          torConsts.STREAMWINDOW_START - torConsts.STREAMWINDOW_INCREMENT →
        conn'.deliver_window = torConsts.STREAMWINDOW_START)) ∧
    (∃ (m' : CircMem) (tr : List Event),
      sendme_circuit_consider_sending torConsts (fun _ => 0) (memAt 900 (fun _ => 1000)) none 2 =
        some (m', tr) ∧
      acks tr = 1 ∧ attempts tr = 1 ∧
      subjectWindow m' none =
        subjectWindow (memAt 900 (fun _ => 1000)) none + torConsts.CIRCWINDOW_INCREMENT ∧
      (subjectWindow (memAt 900 (fun _ => 1000)) none =
          torConsts.CIRCWINDOW_START - torConsts.CIRCWINDOW_INCREMENT →
        subjectWindow m' none = torConsts.CIRCWINDOW_START)) :=
  ⟨(C9_single_replenishment torConsts).1 (liveEnv (fun _ => 0)) (connAt 450) rfl (by decide)
      (by decide) (by decide) (by decide) 2 (by decide),
    (C9_single_replenishment torConsts).2 (fun _ => 0) (memAt 900 (fun _ => 1000)) none
      (by decide) (by decide) (by decide) 2 (by decide)⟩

/-- C10. Stop on first send failure: for either regulator, every entry state
and every sequence of send results, in the trace of a returning call nothing
follows a failed send among the send attempts; hence at most one send failed,
every attempt before the last succeeded, and the number of warnings equals the
number of failed sends, so exactly one warning is logged iff a send failed.
With a positive increment the call returns for every fuel above the number of
replenishments needed. -/
theorem C10_stop_on_first_failure (K : Consts) :
    (∀ (env : EdgeEnv) (conn : edge_connection_t),
      (∀ (fuel : Nat) (conn' : edge_connection_t) (tr : List Event),
        sendme_connection_edge_consider_sending K env conn fuel = some (conn', tr) →
        (∀ (a b : List Int) (r : Int), sendResults tr = a ++ r :: b → r < 0 → b = []) ∧
        failures tr ≤ 1 ∧
        (∀ r ∈ (sendResults tr).dropLast, 0 ≤ r) ∧
        logCount Severity.warn tr = failures tr ∧
        (logCount Severity.warn tr = 1 ↔ ∃ r ∈ sendResults tr, r < 0)) ∧
      (0 < K.STREAMWINDOW_INCREMENT → ∀ fuel : Nat,
        needed (K.STREAMWINDOW_START - K.STREAMWINDOW_INCREMENT) K.STREAMWINDOW_INCREMENT
          conn.deliver_window < fuel →
        (sendme_connection_edge_consider_sending K env conn fuel).isSome = true)) ∧
    (∀ (send : Nat → Int) (m : CircMem) (layer_hint : Option Nat),
      (∀ (fuel : Nat) (m' : CircMem) (tr : List Event),
        sendme_circuit_consider_sending K send m layer_hint fuel = some (m', tr) →
        (∀ (a b : List Int) (r : Int), sendResults tr = a ++ r :: b → r < 0 → b = []) ∧
        failures tr ≤ 1 ∧
        (∀ r ∈ (sendResults tr).dropLast, 0 ≤ r) ∧
        logCount Severity.warn tr = failures tr ∧
        (logCount Severity.warn tr = 1 ↔ ∃ r ∈ sendResults tr, r < 0)) ∧
      (0 < K.CIRCWINDOW_INCREMENT → ∀ fuel : Nat,
        needed (K.CIRCWINDOW_START - K.CIRCWINDOW_INCREMENT) K.CIRCWINDOW_INCREMENT
          (subjectWindow m layer_hint) < fuel →
        (sendme_circuit_consider_sending K send m layer_hint fuel).isSome = true)) := by
  constructor
  · intro env conn
    refine ⟨?_, fun hinc fuel hfuel => edge_isSome K env conn fuel hinc hfuel⟩
    intro fuel conn' tr hrun
    obtain ⟨hdrop, hwarn⟩ := edge_result_shape K env conn fuel conn' tr hrun
    obtain ⟨hstop, hle, hiff⟩ := no_send_after_failure (sendResults tr) hdrop
    exact ⟨hstop, hle, hdrop, hwarn, by rw [hwarn]; exact hiff⟩
  · intro send m layer_hint
    refine ⟨?_, fun hinc fuel hfuel => circ_isSome K send m layer_hint fuel hinc hfuel⟩
    intro fuel m' tr hrun
    obtain ⟨hdrop, hwarn⟩ := circ_trace_shape K send m layer_hint fuel m' tr hrun
    obtain ⟨hstop, hle, hiff⟩ := no_send_after_failure (sendResults tr) hdrop
    exact ⟨hstop, hle, hdrop, hwarn, by rw [hwarn]; exact hiff⟩

/-- C10 at the quoted constants: stream window 300 and circuit window 600 need
four replenishments, the second send fails; the call returns after it with one
warning. -/
theorem C10_stop_on_first_failure_witness :
    (∃ (conn' : edge_connection_t) (tr : List Event),
      sendme_connection_edge_consider_sending torConsts (liveEnv (failAt 1)) (connAt 300) 5 =
        some (conn', tr) ∧
      sendResults tr = [0, -1] ∧ failures tr ≤ 1 ∧ logCount Severity.warn tr = failures tr) ∧
    (∃ (m' : CircMem) (tr : List Event),
      sendme_circuit_consider_sending torConsts (failAt 1) (memAt 600 (fun _ => 1000)) none 5 =
        some (m', tr) ∧
      sendResults tr = [0, -1] ∧ failures tr ≤ 1 ∧ logCount Severity.warn tr = failures tr) :=
  ⟨⟨_, _, rfl, by decide,
      (((C10_stop_on_first_failure torConsts).1 (liveEnv (failAt 1)) (connAt 300)).1
        5 _ _ rfl).2.1,
      (((C10_stop_on_first_failure torConsts).1 (liveEnv (failAt 1)) (connAt 300)).1
        5 _ _ rfl).2.2.2.1⟩,
    ⟨_, _, rfl, by decide,
      (((C10_stop_on_first_failure torConsts).2 (failAt 1) (memAt 600 (fun _ => 1000)) none).1
        5 _ _ rfl).2.1,
      (((C10_stop_on_first_failure torConsts).2 (failAt 1) (memAt 600 (fun _ => 1000)) none).1
        5 _ _ rfl).2.2.2.1⟩⟩

/-- C11. No rollback, credit accounting: for either regulator, every entry
state and every sequence of send results, on return the window has advanced by
the increment times the number of send attempts of the call, successful or
failed; the attempts are the acknowledgments plus the failed sends, so after a
call aborted by a failure the window has advanced by
`increment * (acknowledgments + 1)`: the increment before the failed send is
not reverted.  With a positive increment the call returns for every fuel above
the number of replenishments needed. -/
theorem C11_no_rollback (K : Consts) :
    (∀ (env : EdgeEnv) (conn : edge_connection_t),
      (∀ (fuel : Nat) (conn' : edge_connection_t) (tr : List Event),
        sendme_connection_edge_consider_sending K env conn fuel = some (conn', tr) →
        conn'.deliver_window - conn.deliver_window =
          K.STREAMWINDOW_INCREMENT * (attempts tr : Int) ∧
        attempts tr = acks tr + failures tr ∧
        (0 < failures tr → conn'.deliver_window - conn.deliver_window =
          K.STREAMWINDOW_INCREMENT * ((acks tr : Int) + 1))) ∧
      (0 < K.STREAMWINDOW_INCREMENT → ∀ fuel : Nat,
        needed (K.STREAMWINDOW_START - K.STREAMWINDOW_INCREMENT) K.STREAMWINDOW_INCREMENT
          conn.deliver_window < fuel →
        (sendme_connection_edge_consider_sending K env conn fuel).isSome = true)) ∧
    (∀ (send : Nat → Int) (m : CircMem) (layer_hint : Option Nat),
      (∀ (fuel : Nat) (m' : CircMem) (tr : List Event),
        sendme_circuit_consider_sending K send m layer_hint fuel = some (m', tr) →
        subjectWindow m' layer_hint - subjectWindow m layer_hint =
          K.CIRCWINDOW_INCREMENT * (attempts tr : Int) ∧
        attempts tr = acks tr + failures tr ∧
        (0 < failures tr → subjectWindow m' layer_hint - subjectWindow m layer_hint =
          K.CIRCWINDOW_INCREMENT * ((acks tr : Int) + 1))) ∧
      (0 < K.CIRCWINDOW_INCREMENT → ∀ fuel : Nat,
        needed (K.CIRCWINDOW_START - K.CIRCWINDOW_INCREMENT) K.CIRCWINDOW_INCREMENT
          (subjectWindow m layer_hint) < fuel →
        (sendme_circuit_consider_sending K send m layer_hint fuel).isSome = true)) := by
  constructor
  · intro env conn
    refine ⟨?_, fun hinc fuel hfuel => edge_isSome K env conn fuel hinc hfuel⟩
    intro fuel conn' tr hrun
    obtain ⟨k, hk, _, hwin, _, _, hend⟩ := edge_run_sound K env conn fuel conn' tr hrun
    have hadv : conn'.deliver_window - conn.deliver_window =
        K.STREAMWINDOW_INCREMENT * (attempts tr : Int) := by
      rw [hwin, hk]; ring
    rcases hend with ⟨k', rfl, _, ha, hf, _⟩ | ⟨ha, hf, _⟩
    · refine ⟨hadv, by omega, fun _ => ?_⟩
      rw [hadv, hk, ha]; push_cast; ring
    · exact ⟨hadv, by omega, fun hpos => by omega⟩
  · intro send m layer_hint
    refine ⟨?_, fun hinc fuel hfuel => circ_isSome K send m layer_hint fuel hinc hfuel⟩
    intro fuel m' tr hrun
    obtain ⟨k, hk, _, hm', _, _, hend⟩ := circ_run_sound K send m layer_hint fuel m' tr hrun
    have hadv : subjectWindow m' layer_hint - subjectWindow m layer_hint =
        K.CIRCWINDOW_INCREMENT * (attempts tr : Int) := by
      rw [hm', subjectWindow_setSubject, hk]; ring
    rcases hend with ⟨k', rfl, _, ha, hf, _⟩ | ⟨ha, hf, _⟩
    · refine ⟨hadv, by omega, fun _ => ?_⟩
      rw [hadv, hk, ha]; push_cast; ring
    · exact ⟨hadv, by omega, fun hpos => by omega⟩

/-- C11 at the quoted constants: stream window 300 and the window 600 of hop 1,
second send failing: two attempts, one acknowledgment, the window two
increments higher. -/
theorem C11_no_rollback_witness :
    (∃ (conn' : edge_connection_t) (tr : List Event),
      sendme_connection_edge_consider_sending torConsts (liveEnv (failAt 1)) (connAt 300) 5 =
        some (conn', tr) ∧
      attempts tr = 2 ∧ acks tr = 1 ∧
      conn'.deliver_window - (connAt 300).deliver_window =
        torConsts.STREAMWINDOW_INCREMENT * (attempts tr : Int)) ∧
    (∃ (m' : CircMem) (tr : List Event),
      sendme_circuit_consider_sending torConsts (failAt 1) (memAt 1000 (fun _ => 600)) (some 1) 5 =
        some (m', tr) ∧
      attempts tr = 2 ∧ acks tr = 1 ∧
      subjectWindow m' (some 1) - subjectWindow (memAt 1000 (fun _ => 600)) (some 1) =
        torConsts.CIRCWINDOW_INCREMENT * (attempts tr : Int)) :=
  ⟨⟨_, _, rfl, by decide, by decide,
      (((C11_no_rollback torConsts).1 (liveEnv (failAt 1)) (connAt 300)).1 5 _ _ rfl).1⟩,
    ⟨_, _, rfl, by decide, by decide,
      (((C11_no_rollback torConsts).2 (failAt 1) (memAt 1000 (fun _ => 600)) (some 1)).1
        5 _ _ rfl).1⟩⟩

/-- C12. Termination: for either regulator, a positive increment, every entry
window `w`, however negative, and every sequence of send results, the loop
leaves: the call returns for every fuel above
`max 0 (floor ((threshold - w) / increment) + 1)`, and the number of send
attempts of a returning call is at most that number.  The quotient used is the
floor: `q * increment <= threshold - w < (q + 1) * increment`. -/
theorem C12_termination (K : Consts) :
    (∀ (env : EdgeEnv) (conn : edge_connection_t), 0 < K.STREAMWINDOW_INCREMENT →
      (∀ fuel : Nat,
        max 0 ((K.STREAMWINDOW_START - K.STREAMWINDOW_INCREMENT - conn.deliver_window) /
          K.STREAMWINDOW_INCREMENT + 1) < (fuel : Int) →
        ∃ (conn' : edge_connection_t) (tr : List Event),
          sendme_connection_edge_consider_sending K env conn fuel = some (conn', tr)) ∧
      (∀ (fuel : Nat) (conn' : edge_connection_t) (tr : List Event),
        sendme_connection_edge_consider_sending K env conn fuel = some (conn', tr) →
        (attempts tr : Int) ≤
          max 0 ((K.STREAMWINDOW_START - K.STREAMWINDOW_INCREMENT - conn.deliver_window) /
            K.STREAMWINDOW_INCREMENT + 1)) ∧
      ((K.STREAMWINDOW_START - K.STREAMWINDOW_INCREMENT - conn.deliver_window) /
          K.STREAMWINDOW_INCREMENT * K.STREAMWINDOW_INCREMENT ≤
        K.STREAMWINDOW_START - K.STREAMWINDOW_INCREMENT - conn.deliver_window ∧
        K.STREAMWINDOW_START - K.STREAMWINDOW_INCREMENT - conn.deliver_window <
          ((K.STREAMWINDOW_START - K.STREAMWINDOW_INCREMENT - conn.deliver_window) /
            K.STREAMWINDOW_INCREMENT + 1) * K.STREAMWINDOW_INCREMENT)) ∧
    (∀ (send : Nat → Int) (m : CircMem) (layer_hint : Option Nat),
      0 < K.CIRCWINDOW_INCREMENT →
      (∀ fuel : Nat,
        max 0 ((K.CIRCWINDOW_START - K.CIRCWINDOW_INCREMENT - subjectWindow m layer_hint) /
          K.CIRCWINDOW_INCREMENT + 1) < (fuel : Int) →
        ∃ (m' : CircMem) (tr : List Event),
          sendme_circuit_consider_sending K send m layer_hint fuel = some (m', tr)) ∧
      (∀ (fuel : Nat) (m' : CircMem) (tr : List Event),
        sendme_circuit_consider_sending K send m layer_hint fuel = some (m', tr) →
        (attempts tr : Int) ≤
          max 0 ((K.CIRCWINDOW_START - K.CIRCWINDOW_INCREMENT - subjectWindow m layer_hint) /
            K.CIRCWINDOW_INCREMENT + 1)) ∧
      ((K.CIRCWINDOW_START - K.CIRCWINDOW_INCREMENT - subjectWindow m layer_hint) /
          K.CIRCWINDOW_INCREMENT * K.CIRCWINDOW_INCREMENT ≤
        K.CIRCWINDOW_START - K.CIRCWINDOW_INCREMENT - subjectWindow m layer_hint ∧
        K.CIRCWINDOW_START - K.CIRCWINDOW_INCREMENT - subjectWindow m layer_hint <
          ((K.CIRCWINDOW_START - K.CIRCWINDOW_INCREMENT - subjectWindow m layer_hint) /
            K.CIRCWINDOW_INCREMENT + 1) * K.CIRCWINDOW_INCREMENT)) := by
  constructor
  · intro env conn hinc
    refine ⟨?_, ?_, Int.ediv_mul_le _ (ne_of_gt hinc), Int.lt_ediv_add_one_mul_self _ hinc⟩
    · intro fuel hfuel
      rw [← needed_eq_max] at hfuel
      have hs := edge_isSome K env conn fuel hinc (by exact_mod_cast hfuel)
      obtain ⟨⟨conn', tr⟩, hr⟩ := Option.isSome_iff_exists.1 hs
      exact ⟨conn', tr, hr⟩
    · intro fuel conn' tr hrun
      obtain ⟨k, hk, _, _, _, hle, _⟩ := edge_run_sound K env conn fuel conn' tr hrun
      rw [← needed_eq_max, hk]
      exact_mod_cast attempts_le_needed _ _ _ hinc k hle
  · intro send m layer_hint hinc
    refine ⟨?_, ?_, Int.ediv_mul_le _ (ne_of_gt hinc), Int.lt_ediv_add_one_mul_self _ hinc⟩
    · intro fuel hfuel
      rw [← needed_eq_max] at hfuel
      have hs := circ_isSome K send m layer_hint fuel hinc (by exact_mod_cast hfuel)
      obtain ⟨⟨m', tr⟩, hr⟩ := Option.isSome_iff_exists.1 hs
      exact ⟨m', tr, hr⟩
    · intro fuel m' tr hrun
      obtain ⟨k, hk, _, _, _, hle, _⟩ := circ_run_sound K send m layer_hint fuel m' tr hrun
      rw [← needed_eq_max, hk]
      exact_mod_cast attempts_le_needed _ _ _ hinc k hle

/-- C12 at the quoted constants: a stream window of -1000000 and a circuit
window of -250 (bound 4 + 8 = 12 attempts at most). -/
theorem C12_termination_witness :
    (∀ fuel : Nat,
      max 0 ((torConsts.STREAMWINDOW_START - torConsts.STREAMWINDOW_INCREMENT -
        (connAt (-1000000)).deliver_window) / torConsts.STREAMWINDOW_INCREMENT + 1) <
        (fuel : Int) →
      ∃ (conn' : edge_connection_t) (tr : List Event),
        sendme_connection_edge_consider_sending torConsts (liveEnv (failAt 7))
          (connAt (-1000000)) fuel = some (conn', tr)) ∧
    (∃ (m' : CircMem) (tr : List Event),
      sendme_circuit_consider_sending torConsts (fun _ => 0) (memAt (-250) (fun _ => 0)) none 13 =
        some (m', tr) ∧ attempts tr = 12 ∧
      (attempts tr : Int) ≤
        max 0 ((torConsts.CIRCWINDOW_START - torConsts.CIRCWINDOW_INCREMENT -
          subjectWindow (memAt (-250) (fun _ => 0)) none) /
          torConsts.CIRCWINDOW_INCREMENT + 1)) :=
  ⟨((C12_termination torConsts).1 (liveEnv (failAt 7)) (connAt (-1000000)) (by decide)).1,
    ⟨_, _, rfl, by decide,
      ((C12_termination torConsts).2 (fun _ => 0) (memAt (-250) (fun _ => 0)) none
        (by decide)).2.1 13 _ _ rfl⟩⟩

/-- C13. Exit predicate: for every entry state and every sequence of send
results, when the circuit regulator returns, either the subject window is above
the threshold or the last send attempt of the call failed; when the stream
regulator returns, either the buffer was congested, or the circuit was absent,
or the deliver window is above the threshold, or the last send attempt of the
call failed.  A call that has not returned is still replenishing: every
iteration so far found the window at or below the threshold and its send
succeeded.  With a positive increment the call returns for every fuel above the
number of replenishments needed. -/
theorem C13_exit_predicate (K : Consts) :
    (∀ (send : Nat → Int) (m : CircMem) (layer_hint : Option Nat),
      (∀ (fuel : Nat) (m' : CircMem) (tr : List Event),
        sendme_circuit_consider_sending K send m layer_hint fuel = some (m', tr) →
        K.CIRCWINDOW_START - K.CIRCWINDOW_INCREMENT < subjectWindow m' layer_hint ∨
        ∃ r : Int, (sendResults tr).getLast? = some r ∧ r < 0) ∧
      (∀ fuel : Nat, sendme_circuit_consider_sending K send m layer_hint fuel = none →
        ∀ j : Nat, j < fuel →
          subjectWindow m layer_hint + j * K.CIRCWINDOW_INCREMENT ≤
            K.CIRCWINDOW_START - K.CIRCWINDOW_INCREMENT ∧ 0 ≤ send j) ∧
      (0 < K.CIRCWINDOW_INCREMENT → ∀ fuel : Nat,
        needed (K.CIRCWINDOW_START - K.CIRCWINDOW_INCREMENT) K.CIRCWINDOW_INCREMENT
          (subjectWindow m layer_hint) < fuel →
        (sendme_circuit_consider_sending K send m layer_hint fuel).isSome = true)) ∧
    (∀ (env : EdgeEnv) (conn : edge_connection_t),
      (∀ (fuel : Nat) (conn' : edge_connection_t) (tr : List Event),
        sendme_connection_edge_consider_sending K env conn fuel = some (conn', tr) →
        env.connection_outbuf_too_full = true ∨ env.circuit_get_by_edge_conn = none ∨
        K.STREAMWINDOW_START - K.STREAMWINDOW_INCREMENT < conn'.deliver_window ∨
        ∃ r : Int, (sendResults tr).getLast? = some r ∧ r < 0) ∧
      (∀ fuel : Nat, sendme_connection_edge_consider_sending K env conn fuel = none →
        env.connection_outbuf_too_full = false ∧ env.circuit_get_by_edge_conn ≠ none ∧
        ∀ j : Nat, j < fuel →
          conn.deliver_window + j * K.STREAMWINDOW_INCREMENT ≤
            K.STREAMWINDOW_START - K.STREAMWINDOW_INCREMENT ∧
          0 ≤ env.connection_edge_send_command j) ∧
      (0 < K.STREAMWINDOW_INCREMENT → ∀ fuel : Nat,
        needed (K.STREAMWINDOW_START - K.STREAMWINDOW_INCREMENT) K.STREAMWINDOW_INCREMENT
          conn.deliver_window < fuel →
        (sendme_connection_edge_consider_sending K env conn fuel).isSome = true)) := by
  constructor
  · intro send m layer_hint
    refine ⟨?_, ?_, fun hinc fuel hfuel => circ_isSome K send m layer_hint fuel hinc hfuel⟩
    · intro fuel m' tr hrun
      obtain ⟨k, _, _, _, _, _, hend⟩ := circ_run_sound K send m layer_hint fuel m' tr hrun
      rcases hend with ⟨k', _, hfail, _, _, hlast⟩ | ⟨_, _, hgt⟩
      · exact Or.inr ⟨_, hlast, hfail⟩
      · exact Or.inl hgt
    · intro fuel hnone j hj
      rw [circ_run, Option.map_eq_none'] at hnone
      simpa using replenish_none _ _ _ fuel 0 _ hnone j hj
  · intro env conn
    refine ⟨?_, ?_, fun hinc fuel hfuel => edge_isSome K env conn fuel hinc hfuel⟩
    · intro fuel conn' tr hrun
      obtain ⟨k, _, _, _, _, _, hend⟩ := edge_run_sound K env conn fuel conn' tr hrun
      rcases hend with ⟨k', _, hfail, _, _, hlast, _⟩ | ⟨_, _, hgate⟩
      · exact Or.inr (Or.inr (Or.inr ⟨_, hlast, hfail⟩))
      · rcases hgate with h | h | h
        · exact Or.inl h
        · exact Or.inr (Or.inl h)
        · exact Or.inr (Or.inr (Or.inl h))
    · intro fuel hnone
      cases hc : env.connection_outbuf_too_full with
      | true => simp [sendme_connection_edge_consider_sending, hc] at hnone
      | false =>
        by_cases hn : env.circuit_get_by_edge_conn = none
        · simp [sendme_connection_edge_consider_sending, hc, hn] at hnone
        · rw [edge_run K env conn _ hc hn, Option.map_eq_none'] at hnone
          exact ⟨rfl, hn, fun j hj => by
            simpa using replenish_none _ _ _ fuel 0 _ hnone j hj⟩

/-- C13 at the quoted constants: the circuit call from 600 with the second send
failing returns at window 800, below the threshold, its last send having
failed; the stream call from 300 with every send succeeding returns above the
threshold. -/
theorem C13_exit_predicate_witness :
    (∃ (m' : CircMem) (tr : List Event),
      sendme_circuit_consider_sending torConsts (failAt 1) (memAt 600 (fun _ => 1000)) none 5 =
        some (m', tr) ∧ subjectWindow m' none = 800 ∧
      (torConsts.CIRCWINDOW_START - torConsts.CIRCWINDOW_INCREMENT < subjectWindow m' none ∨
        ∃ r : Int, (sendResults tr).getLast? = some r ∧ r < 0)) ∧
    (∃ (conn' : edge_connection_t) (tr : List Event),
      sendme_connection_edge_consider_sending torConsts (liveEnv (fun _ => 0)) (connAt 300) 5 =
        some (conn', tr) ∧ conn'.deliver_window = 500 ∧
      ((liveEnv (fun _ => 0)).connection_outbuf_too_full = true ∨
        (liveEnv (fun _ => 0)).circuit_get_by_edge_conn = none ∨
        torConsts.STREAMWINDOW_START - torConsts.STREAMWINDOW_INCREMENT < conn'.deliver_window ∨
        ∃ r : Int, (sendResults tr).getLast? = some r ∧ r < 0)) :=
  ⟨⟨_, _, rfl, by decide,
      ((C13_exit_predicate torConsts).1 (failAt 1) (memAt 600 (fun _ => 1000)) none).1
        5 _ _ rfl⟩,
    ⟨_, _, rfl, by decide,
      ((C13_exit_predicate torConsts).2 (liveEnv (fun _ => 0)) (connAt 300)).1 5 _ _ rfl⟩⟩

/-- C14. Window only grows, and never past start: for either regulator, every
entry state and every sequence of send results, the assignments of a returning
call are exactly one per send attempt, number `j` reading `w + j * increment`
and writing `w + (j + 1) * increment`; each reads a value at or below the
threshold and adds exactly the increment.  Consequently, for a non-negative
increment the final window is at least the entry window, and if the entry
window is at most start then every value written and the final window are at
most `start = threshold + increment`; with the entry window and start in the
range of a 32-bit `int`, so is every value written.  With a positive increment
the call returns for every fuel above the number of replenishments needed. -/
theorem C14_window_only_grows (K : Consts) :
    (∀ (env : EdgeEnv) (conn : edge_connection_t),
      (∀ (fuel : Nat) (conn' : edge_connection_t) (tr : List Event),
        sendme_connection_edge_consider_sending K env conn fuel = some (conn', tr) →
        ∃ ws : List (Int × Int),
          sendme_connection_edge_writes K env conn fuel = some ws ∧
          ws = (List.range (attempts tr)).map (fun j : Nat =>
            (conn.deliver_window + j * K.STREAMWINDOW_INCREMENT,
              conn.deliver_window + (j + 1) * K.STREAMWINDOW_INCREMENT)) ∧
          conn'.deliver_window =
            conn.deliver_window + (attempts tr : Int) * K.STREAMWINDOW_INCREMENT ∧
          (∀ p ∈ ws, p.1 ≤ K.STREAMWINDOW_START - K.STREAMWINDOW_INCREMENT ∧
            p.2 = p.1 + K.STREAMWINDOW_INCREMENT) ∧
          (0 ≤ K.STREAMWINDOW_INCREMENT → conn.deliver_window ≤ conn'.deliver_window) ∧
          (conn.deliver_window ≤ K.STREAMWINDOW_START →
            (∀ p ∈ ws, p.2 ≤ K.STREAMWINDOW_START) ∧
            conn'.deliver_window ≤ K.STREAMWINDOW_START) ∧
          (0 ≤ K.STREAMWINDOW_INCREMENT → -2 ^ 31 ≤ conn.deliver_window →
            K.STREAMWINDOW_START ≤ 2 ^ 31 - 1 →
            ∀ p ∈ ws, -2 ^ 31 ≤ p.2 ∧ p.2 ≤ 2 ^ 31 - 1)) ∧
      (K.STREAMWINDOW_START - K.STREAMWINDOW_INCREMENT) + K.STREAMWINDOW_INCREMENT =
        K.STREAMWINDOW_START ∧
      (0 < K.STREAMWINDOW_INCREMENT → ∀ fuel : Nat,
        needed (K.STREAMWINDOW_START - K.STREAMWINDOW_INCREMENT) K.STREAMWINDOW_INCREMENT
          conn.deliver_window < fuel →
        (sendme_connection_edge_consider_sending K env conn fuel).isSome = true)) ∧
    (∀ (send : Nat → Int) (m : CircMem) (layer_hint : Option Nat),
      (∀ (fuel : Nat) (m' : CircMem) (tr : List Event),
        sendme_circuit_consider_sending K send m layer_hint fuel = some (m', tr) →
        ∃ ws : List (Int × Int),
          sendme_circuit_writes K send m layer_hint fuel = some ws ∧
          ws = (List.range (attempts tr)).map (fun j : Nat =>
            (subjectWindow m layer_hint + j * K.CIRCWINDOW_INCREMENT,
              subjectWindow m layer_hint + (j + 1) * K.CIRCWINDOW_INCREMENT)) ∧
          subjectWindow m' layer_hint =
            subjectWindow m layer_hint + (attempts tr : Int) * K.CIRCWINDOW_INCREMENT ∧
          (∀ p ∈ ws, p.1 ≤ K.CIRCWINDOW_START - K.CIRCWINDOW_INCREMENT ∧
            p.2 = p.1 + K.CIRCWINDOW_INCREMENT) ∧
          (0 ≤ K.CIRCWINDOW_INCREMENT →
            subjectWindow m layer_hint ≤ subjectWindow m' layer_hint) ∧
          (subjectWindow m layer_hint ≤ K.CIRCWINDOW_START →
            (∀ p ∈ ws, p.2 ≤ K.CIRCWINDOW_START) ∧
            subjectWindow m' layer_hint ≤ K.CIRCWINDOW_START) ∧
          (0 ≤ K.CIRCWINDOW_INCREMENT → -2 ^ 31 ≤ subjectWindow m layer_hint →
            K.CIRCWINDOW_START ≤ 2 ^ 31 - 1 →
            ∀ p ∈ ws, -2 ^ 31 ≤ p.2 ∧ p.2 ≤ 2 ^ 31 - 1)) ∧
      (K.CIRCWINDOW_START - K.CIRCWINDOW_INCREMENT) + K.CIRCWINDOW_INCREMENT =
        K.CIRCWINDOW_START ∧
      (0 < K.CIRCWINDOW_INCREMENT → ∀ fuel : Nat,
        needed (K.CIRCWINDOW_START - K.CIRCWINDOW_INCREMENT) K.CIRCWINDOW_INCREMENT
          (subjectWindow m layer_hint) < fuel →
        (sendme_circuit_consider_sending K send m layer_hint fuel).isSome = true)) := by
  have key : ∀ (thr inc w w' : Int) (k : Nat), w' = w + k * inc →
      (∀ j : Nat, j < k → w + j * inc ≤ thr) →
      (∀ p ∈ (List.range k).map (fun j : Nat => (w + j * inc, w + (j + 1) * inc)),
        p.1 ≤ thr ∧ p.2 = p.1 + inc) ∧
      (0 ≤ inc → w ≤ w') ∧
      (w ≤ thr + inc →
        (∀ p ∈ (List.range k).map (fun j : Nat => (w + j * inc, w + (j + 1) * inc)),
          p.2 ≤ thr + inc) ∧ w' ≤ thr + inc) ∧
      (0 ≤ inc → -2 ^ 31 ≤ w → thr + inc ≤ 2 ^ 31 - 1 →
        ∀ p ∈ (List.range k).map (fun j : Nat => (w + j * inc, w + (j + 1) * inc)),
          -2 ^ 31 ≤ p.2 ∧ p.2 ≤ 2 ^ 31 - 1) := by
    intro thr inc w w' k hw' hle
    have hmem := writesOf_mem thr inc w k hle
    have hk0 : (0 : Int) ≤ k := Int.ofNat_nonneg k
    refine ⟨fun p hp => ⟨(hmem p hp).1, (hmem p hp).2.1⟩, fun hinc => ?_, fun hw => ⟨?_, ?_⟩,
      fun hinc hlo hhi p hp => ?_⟩
    · rw [hw']; nlinarith
    · intro p hp
      have hthr := (hmem p hp).1
      have heq := (hmem p hp).2.1
      linarith
    · cases k with
      | zero => rw [hw']; simpa using hw
      | succ k' =>
        have := hle k' (by omega)
        rw [hw']; push_cast; linarith
    · have hthr := (hmem p hp).1
      have heq := (hmem p hp).2.1
      simp only [List.mem_map, List.mem_range] at hp
      obtain ⟨j, _, rfl⟩ := hp
      have hj0 : (0 : Int) ≤ j := Int.ofNat_nonneg j
      dsimp only at hthr heq ⊢
      constructor
      · nlinarith
      · linarith
  constructor
  · intro env conn
    refine ⟨?_, by ring, fun hinc fuel hfuel => edge_isSome K env conn fuel hinc hfuel⟩
    intro fuel conn' tr hrun
    obtain ⟨k, hk, _, hwin, _, hle, _⟩ := edge_run_sound K env conn fuel conn' tr hrun
    subst hk
    obtain ⟨h1, h2, h3, h4⟩ := key _ _ _ _ _ hwin hle
    exact ⟨_, edge_writes_of_run K env conn fuel conn' tr hrun, rfl, hwin, h1, h2,
      fun hw => by
        have := h3 (by linarith)
        exact ⟨fun p hp => by have := this.1 p hp; linarith, by linarith [this.2]⟩,
      fun hinc hlo hhi => h4 hinc hlo (by linarith)⟩
  · intro send m layer_hint
    refine ⟨?_, by ring, fun hinc fuel hfuel => circ_isSome K send m layer_hint fuel hinc hfuel⟩
    intro fuel m' tr hrun
    obtain ⟨k, hk, _, hm', _, hle, _⟩ := circ_run_sound K send m layer_hint fuel m' tr hrun
    subst hk
    have hwin : subjectWindow m' layer_hint =
        subjectWindow m layer_hint + (attempts tr : Int) * K.CIRCWINDOW_INCREMENT := by
      rw [hm', subjectWindow_setSubject]
    obtain ⟨h1, h2, h3, h4⟩ := key _ _ _ _ _ hwin hle
    exact ⟨_, circ_writes_of_run K send m layer_hint fuel m' tr hrun, rfl, hwin, h1, h2,
      fun hw => by
        have := h3 (by linarith)
        exact ⟨fun p hp => by have := this.1 p hp; linarith, by linarith [this.2]⟩,
      fun hinc hlo hhi => h4 hinc hlo (by linarith)⟩

/-- C14 at the quoted constants: stream window 300 and circuit window 600,
second send failing: two assignments each, all at or below the threshold. -/
theorem C14_window_only_grows_witness :
    (∃ ws : List (Int × Int),
      sendme_connection_edge_writes torConsts (liveEnv (failAt 1)) (connAt 300) 5 = some ws ∧
      ws = [(300, 350), (350, 400)] ∧
      ∀ p ∈ ws, p.1 ≤ torConsts.STREAMWINDOW_START - torConsts.STREAMWINDOW_INCREMENT ∧
        p.2 = p.1 + torConsts.STREAMWINDOW_INCREMENT) ∧
    (∃ ws : List (Int × Int),
      sendme_circuit_writes torConsts (failAt 1) (memAt 600 (fun _ => 1000)) none 5 = some ws ∧
      ws = [(600, 700), (700, 800)] ∧
      ∀ p ∈ ws, p.1 ≤ torConsts.CIRCWINDOW_START - torConsts.CIRCWINDOW_INCREMENT ∧
        p.2 = p.1 + torConsts.CIRCWINDOW_INCREMENT) := by
  obtain ⟨ws, h1, h2, _, h4, _⟩ :=
    ((C14_window_only_grows torConsts).1 (liveEnv (failAt 1)) (connAt 300)).1 5
      (connAt 400) (edgeEvents LogDomain.LD_APP [0, -1]) (by decide)
  obtain ⟨vs, g1, g2, _, g4, _⟩ :=
    ((C14_window_only_grows torConsts).2 (failAt 1) (memAt 600 (fun _ => 1000)) none).1 5
      (memAt 800 (fun _ => 1000)) (circEvents none [0, -1]) (by rfl)
  exact ⟨⟨ws, h1, by rw [h2]; decide, h4⟩, ⟨vs, g1, by rw [g2]; decide, g4⟩⟩

/-- C15. Ack addressing and no gate in the circuit regulator: every call of the
send primitive made by one invocation of `sendme_circuit_consider_sending` is
`relay_send_command_from_edge` with stream id 0, command `RELAY_COMMAND_SENDME`,
no payload, length 0 and the very `layer_hint` the invocation received
(addressed to the hop iff one was designated), and every other event is a log
line.  The final subject window, the number of acknowledgments and the send
results are determined by the entry subject window and the answers of the send
primitive alone: two invocations that agree on these agree on the outcome,
whatever the rest of the memory and whichever hop, if any, is designated; no
buffer state is an input.  With a positive increment the call returns for every
fuel above the number of replenishments needed. -/
theorem C15_ack_addressing (K : Consts) (send : Nat → Int) :
    (∀ (m : CircMem) (layer_hint : Option Nat) (fuel : Nat) (m' : CircMem) (tr : List Event),
      sendme_circuit_consider_sending K send m layer_hint fuel = some (m', tr) →
      ∀ e ∈ tr, (∃ (sev : Severity) (dom : LogDomain), e = Event.log sev dom) ∨
        ∃ r : Int, e = Event.relay_send_command_from_edge 0
          RelayCommand.RELAY_COMMAND_SENDME none 0 layer_hint r) ∧
    (∀ (m1 m2 : CircMem) (h1 h2 : Option Nat) (fuel : Nat),
      subjectWindow m1 h1 = subjectWindow m2 h2 →
      (sendme_circuit_consider_sending K send m1 h1 fuel).map
          (fun r => (subjectWindow r.1 h1, acks r.2, sendResults r.2)) =
        (sendme_circuit_consider_sending K send m2 h2 fuel).map
          (fun r => (subjectWindow r.1 h2, acks r.2, sendResults r.2))) ∧
    (0 < K.CIRCWINDOW_INCREMENT → ∀ (m : CircMem) (layer_hint : Option Nat) (fuel : Nat),
      needed (K.CIRCWINDOW_START - K.CIRCWINDOW_INCREMENT) K.CIRCWINDOW_INCREMENT
        (subjectWindow m layer_hint) < fuel →
      (sendme_circuit_consider_sending K send m layer_hint fuel).isSome = true) := by
  refine ⟨?_, ?_, fun hinc m layer_hint fuel hfuel =>
    circ_isSome K send m layer_hint fuel hinc hfuel⟩
  · intro m layer_hint fuel m' tr hrun e he
    obtain ⟨w', rs, _, _, rfl⟩ := circ_result_shape K send m layer_hint fuel m' tr hrun
    rcases circEvents_mem layer_hint rs e he with hl | ⟨r, _, hr⟩
    · exact Or.inl hl
    · exact Or.inr ⟨r, hr⟩
  · intro m1 m2 h1 h2 fuel hw
    rw [circ_run, circ_run, hw, Option.map_map, Option.map_map]
    congr 1
    funext p
    simp [Function.comp, subjectWindow_setSubject, acks, sendResults_circEvents]

/-- C15 at the quoted constants: a call addressed to hop 2 (window 700) and an
unaddressed call on a circuit of aggregate window 700 send the same three
acknowledgments and end at the same window; the events of the first carry
`some 2`. -/
theorem C15_ack_addressing_witness :
    (sendme_circuit_consider_sending torConsts (fun _ => 0) (memAt 1000 (fun _ => 700))
        (some 2) 4).map (fun r => (subjectWindow r.1 (some 2), acks r.2, sendResults r.2)) =
      (sendme_circuit_consider_sending torConsts (fun _ => 0) (memAt 700 (fun _ => 0))
        none 4).map (fun r => (subjectWindow r.1 none, acks r.2, sendResults r.2)) ∧
    (sendme_circuit_consider_sending torConsts (fun _ => 0) (memAt 1000 (fun _ => 700))
        (some 2) 4).map (fun r => (subjectWindow r.1 (some 2), acks r.2)) = some (1000, 3) ∧
    ∀ e ∈ circEvents (some 2) [0, 0, 0],
      (∃ (sev : Severity) (dom : LogDomain), e = Event.log sev dom) ∨
        ∃ r : Int, e = Event.relay_send_command_from_edge 0
          RelayCommand.RELAY_COMMAND_SENDME none 0 (some 2) r :=
  ⟨(C15_ack_addressing torConsts (fun _ => 0)).2.1 (memAt 1000 (fun _ => 700))
      (memAt 700 (fun _ => 0)) (some 2) none 4 (by decide),
    by decide,
    (C15_ack_addressing torConsts (fun _ => 0)).1 (memAt 1000 (fun _ => 700)) (some 2) 4
      _ (circEvents (some 2) [0, 0, 0]) rfl⟩

/-- C16. Lost credit after a failure: for either regulator and a positive
increment, if one call is aborted by a send failure (so its entry window was at
or below the threshold) and a second call on the resulting state runs with
every send succeeding (stream: not congested, circuit present), then the state
after the second call is the state a single all-success call from the entry
state produces, in particular the final windows agree, while the
acknowledgments emitted by the two calls together are exactly one fewer than
those of the single call.  All three calls return, the latter two for every
fuel above the number of replenishments needed from the entry window. -/
theorem C16_lost_credit (K : Consts) :
    (∀ (env1 env2 env3 : EdgeEnv) (conn conn1 : edge_connection_t) (fuel1 : Nat)
      (tr1 : List Event),
      0 < K.STREAMWINDOW_INCREMENT →
      sendme_connection_edge_consider_sending K env1 conn fuel1 = some (conn1, tr1) →
      0 < failures tr1 →
      env2.connection_outbuf_too_full = false → env2.circuit_get_by_edge_conn ≠ none →
      (∀ j : Nat, 0 ≤ env2.connection_edge_send_command j) →
      env3.connection_outbuf_too_full = false → env3.circuit_get_by_edge_conn ≠ none →
      (∀ j : Nat, 0 ≤ env3.connection_edge_send_command j) →
      conn.deliver_window ≤ K.STREAMWINDOW_START - K.STREAMWINDOW_INCREMENT ∧
      ∀ fuel : Nat,
        needed (K.STREAMWINDOW_START - K.STREAMWINDOW_INCREMENT) K.STREAMWINDOW_INCREMENT
          conn.deliver_window < fuel →
        ∃ (conn2 conn3 : edge_connection_t) (tr2 tr3 : List Event),
          sendme_connection_edge_consider_sending K env2 conn1 fuel = some (conn2, tr2) ∧
          sendme_connection_edge_consider_sending K env3 conn fuel = some (conn3, tr3) ∧
          failures tr2 = 0 ∧ failures tr3 = 0 ∧
          conn2 = conn3 ∧ conn2.deliver_window = conn3.deliver_window ∧
          acks tr1 + acks tr2 + 1 = acks tr3) ∧
    (∀ (send1 send2 send3 : Nat → Int) (m m1 : CircMem) (layer_hint : Option Nat)
      (fuel1 : Nat) (tr1 : List Event),
      0 < K.CIRCWINDOW_INCREMENT →
      sendme_circuit_consider_sending K send1 m layer_hint fuel1 = some (m1, tr1) →
      0 < failures tr1 →
      (∀ j : Nat, 0 ≤ send2 j) → (∀ j : Nat, 0 ≤ send3 j) →
      subjectWindow m layer_hint ≤ K.CIRCWINDOW_START - K.CIRCWINDOW_INCREMENT ∧
      ∀ fuel : Nat,
        needed (K.CIRCWINDOW_START - K.CIRCWINDOW_INCREMENT) K.CIRCWINDOW_INCREMENT
          (subjectWindow m layer_hint) < fuel →
        ∃ (m2 m3 : CircMem) (tr2 tr3 : List Event),
          sendme_circuit_consider_sending K send2 m1 layer_hint fuel = some (m2, tr2) ∧
          sendme_circuit_consider_sending K send3 m layer_hint fuel = some (m3, tr3) ∧
          failures tr2 = 0 ∧ failures tr3 = 0 ∧
          m2 = m3 ∧ subjectWindow m2 layer_hint = subjectWindow m3 layer_hint ∧
          acks tr1 + acks tr2 + 1 = acks tr3) := by
  constructor
  · intro env1 env2 env3 conn conn1 fuel1 tr1 hinc hrun hfail hc2 hn2 hs2 hc3 hn3 hs3
    obtain ⟨k, _, _, hwin, hbase, hle, hend⟩ := edge_run_sound K env1 conn fuel1 conn1 tr1 hrun
    rcases hend with ⟨k', rfl, _, ha1, _, _⟩ | ⟨_, hf0, _⟩
    swap
    · omega
    have hentry : conn.deliver_window ≤ K.STREAMWINDOW_START - K.STREAMWINDOW_INCREMENT := by
      simpa using hle 0 (by omega)
    refine ⟨hentry, ?_⟩
    intro fuel hfuel
    have hk := attempts_le_needed _ _ _ hinc (k' + 1) hle
    obtain ⟨d, hd⟩ : ∃ d, needed (K.STREAMWINDOW_START - K.STREAMWINDOW_INCREMENT)
        K.STREAMWINDOW_INCREMENT conn.deliver_window = (k' + 1) + d :=
      ⟨needed (K.STREAMWINDOW_START - K.STREAMWINDOW_INCREMENT)
        K.STREAMWINDOW_INCREMENT conn.deliver_window - (k' + 1), by omega⟩
    have hgt := needed_gt (K.STREAMWINDOW_START - K.STREAMWINDOW_INCREMENT)
      K.STREAMWINDOW_INCREMENT conn.deliver_window hinc
    have hnle := needed_le (K.STREAMWINDOW_START - K.STREAMWINDOW_INCREMENT)
      K.STREAMWINDOW_INCREMENT conn.deliver_window hinc
    rw [hd] at hgt hnle hfuel
    obtain ⟨conn2, tr2, hrun2, ha2, _, hf2, _, _, hwin2, hbase2⟩ :=
      edge_ok_run K env2 conn1 d fuel hc2 hn2
        (fun j hj => by
          have := hnle (k' + 1 + j) (by omega)
          rw [hwin]; push_cast at this ⊢; linarith)
        (by rw [hwin]; push_cast at hgt ⊢; linarith)
        (fun j _ => hs2 j) (by omega)
    obtain ⟨conn3, tr3, hrun3, ha3, _, hf3, _, _, hwin3, hbase3⟩ :=
      edge_ok_run K env3 conn (k' + 1 + d) fuel hc3 hn3 hnle hgt (fun j _ => hs3 j) hfuel
    have hweq : conn2.deliver_window = conn3.deliver_window := by
      rw [hwin2, hwin3, hwin]; push_cast; ring
    have heq : conn2 = conn3 := by
      cases conn2
      cases conn3
      simp only [edge_connection_t.mk.injEq]
      exact ⟨hbase2.trans (hbase.trans hbase3.symm), hweq⟩
    exact ⟨conn2, conn3, tr2, tr3, hrun2, hrun3, hf2, hf3, heq, hweq, by omega⟩
  · intro send1 send2 send3 m m1 layer_hint fuel1 tr1 hinc hrun hfail hs2 hs3
    obtain ⟨k, _, _, hm1, _, hle, hend⟩ := circ_run_sound K send1 m layer_hint fuel1 m1 tr1 hrun
    rcases hend with ⟨k', rfl, _, ha1, _, _⟩ | ⟨_, hf0, _⟩
    swap
    · omega
    have hentry : subjectWindow m layer_hint ≤ K.CIRCWINDOW_START - K.CIRCWINDOW_INCREMENT := by
      simpa using hle 0 (by omega)
    refine ⟨hentry, ?_⟩
    intro fuel hfuel
    have hk := attempts_le_needed _ _ _ hinc (k' + 1) hle
    obtain ⟨d, hd⟩ : ∃ d, needed (K.CIRCWINDOW_START - K.CIRCWINDOW_INCREMENT)
        K.CIRCWINDOW_INCREMENT (subjectWindow m layer_hint) = (k' + 1) + d :=
      ⟨needed (K.CIRCWINDOW_START - K.CIRCWINDOW_INCREMENT)
        K.CIRCWINDOW_INCREMENT (subjectWindow m layer_hint) - (k' + 1), by omega⟩
    have hgt := needed_gt (K.CIRCWINDOW_START - K.CIRCWINDOW_INCREMENT)
      K.CIRCWINDOW_INCREMENT (subjectWindow m layer_hint) hinc
    have hnle := needed_le (K.CIRCWINDOW_START - K.CIRCWINDOW_INCREMENT)
      K.CIRCWINDOW_INCREMENT (subjectWindow m layer_hint) hinc
    rw [hd] at hgt hnle hfuel
    have hw1 : subjectWindow m1 layer_hint =
        subjectWindow m layer_hint + ((k' + 1 : Nat) : Int) * K.CIRCWINDOW_INCREMENT := by
      rw [hm1, subjectWindow_setSubject]
    obtain ⟨tr2, hrun2, ha2, _, hf2, _, _⟩ :=
      circ_ok_run K send2 m1 layer_hint d fuel
        (fun j hj => by
          have := hnle (k' + 1 + j) (by omega)
          rw [hw1]; push_cast at this ⊢; linarith)
        (by rw [hw1]; push_cast at hgt ⊢; linarith)
        (fun j _ => hs2 j) (by omega)
    obtain ⟨tr3, hrun3, ha3, _, hf3, _, _⟩ :=
      circ_ok_run K send3 m layer_hint (k' + 1 + d) fuel hnle hgt (fun j _ => hs3 j) hfuel
    have heq : setSubject m1 layer_hint (subjectWindow m1 layer_hint + (d : Int) *
        K.CIRCWINDOW_INCREMENT) = setSubject m layer_hint (subjectWindow m layer_hint +
        ((k' + 1 + d : Nat) : Int) * K.CIRCWINDOW_INCREMENT) := by
      rw [hw1, hm1, setSubject_setSubject]
      congr 1
      push_cast
      ring
    exact ⟨_, _, tr2, tr3, hrun2, hrun3, hf2, hf3, heq, by rw [heq], by omega⟩

/-- C16 at the quoted constants: stream window 300 (circuit window 600), first
call aborted by the failure of its second send, second call all-success: the
window ends at 500 (1000) as after a single all-success call, with 1 + 2 = 3
acknowledgments against 4. -/
theorem C16_lost_credit_witness :
    (∃ (conn2 conn3 : edge_connection_t) (tr2 tr3 : List Event),
      sendme_connection_edge_consider_sending torConsts (liveEnv (fun _ => 0)) (connAt 400) 5 =
        some (conn2, tr2) ∧
      sendme_connection_edge_consider_sending torConsts (liveEnv (fun _ => 0)) (connAt 300) 5 =
        some (conn3, tr3) ∧
      failures tr2 = 0 ∧ failures tr3 = 0 ∧
      conn2 = conn3 ∧ conn2.deliver_window = conn3.deliver_window ∧
      acks (edgeEvents LogDomain.LD_APP [0, -1]) + acks tr2 + 1 = acks tr3) ∧
    (∃ (m2 m3 : CircMem) (tr2 tr3 : List Event),
      sendme_circuit_consider_sending torConsts (fun _ => 0) (memAt 800 (fun _ => 1000)) none 5 =
        some (m2, tr2) ∧
      sendme_circuit_consider_sending torConsts (fun _ => 0) (memAt 600 (fun _ => 1000)) none 5 =
        some (m3, tr3) ∧
      failures tr2 = 0 ∧ failures tr3 = 0 ∧
      m2 = m3 ∧ subjectWindow m2 none = subjectWindow m3 none ∧
      acks (circEvents none [0, -1]) + acks tr2 + 1 = acks tr3) :=
  ⟨((C16_lost_credit torConsts).1 (liveEnv (failAt 1)) (liveEnv (fun _ => 0))
      (liveEnv (fun _ => 0)) (connAt 300) (connAt 400) 5 (edgeEvents LogDomain.LD_APP [0, -1])
      (by decide) (by decide) (by decide) rfl (by decide) (fun _ => Int.le_refl 0)
      rfl (by decide) (fun _ => Int.le_refl 0)).2 5 (by decide),
    ((C16_lost_credit torConsts).2 (failAt 1) (fun _ => 0) (fun _ => 0)
      (memAt 600 (fun _ => 1000)) (memAt 800 (fun _ => 1000)) none 5 (circEvents none [0, -1])
      (by decide) (by rfl) (by decide) (fun _ => Int.le_refl 0) (fun _ => Int.le_refl 0)).2
      5 (by decide)⟩

end Sendme
